/-
  Verification of the conversational memory engine (maid-origin).

  Shallow embedding of the core subsystems:
  * the memory store and its cosine top-K search (`searchSimilarMemories`,
    `bulkSearchSimilarMemories`),
  * the extraction pipeline (`extractMemory` and its stages, from the
    monolithic memory module),
  * the debounced extraction scheduler (`debounceMemoryExtraction` over the
    BullMQ-style queue backend),
  * the prompt memory recall formatter (`formatMemories` of the simple
    story handler).

  Database rows are modelled as Lean structures; the database is a record of
  row lists.  SQL numeric values (pgvector similarities, `real` columns) are
  modelled as rationals.  The LLM gateway, the embedding provider and the
  pgvector cosine-distance operator are external collaborators and enter as
  parameters of an environment record.  Statement-level I/O failure is
  modelled by a failure schedule `fail : Nat → Bool` indexed by the write
  statements a run executes; a transaction whose body fails rolls the state
  back, a loose sequence of statements does not.
-/
import Mathlib

/- The Batteries rational arithmetic is sealed `@[irreducible]`; reopen it
so that concrete runs evaluate by `decide`. -/
attribute [local semireducible] Rat.mul Rat.add Rat.sub Rat.inv

/-! ## Basic data model -/

/-- An embedding vector.  The store is configured for d = 1536 but no claim
depends on the dimension, so vectors are plain rational lists. -/
abbrev Embedding := List ℚ

/-- `content-type` column of the `message` table (`{query, response}` check). -/
inductive ContentType where
  | query
  | response
deriving DecidableEq, Repr

/-- The JSONB `content` of a message, restricted to the fields the simple
handler reads: `question` for queries, `answer` for responses.  A missing
field is `none` (JS `undefined`). -/
structure SimpleContent where
  question : Option String
  answer : Option String
deriving DecidableEq, Repr

/-- A row of the `story` table. -/
structure StoryRow where
  id : Nat
  userId : String
  name : String
  handler : String
deriving DecidableEq, Repr

/-- A row of the `message` table. -/
structure MessageRow where
  id : Nat
  storyId : Nat
  contentType : ContentType
  content : SimpleContent
  extracted : Bool
  createdAt : Nat
  updatedAt : Nat
deriving DecidableEq, Repr

/-- A row of the `memory` table.  All the metadata columns are nullable in
the DDL, hence the `Option`s. -/
structure MemoryRow where
  id : Nat
  userId : String
  content : Option String
  prevContent : Option String
  category : Option String
  importance : Option ℚ
  confidence : Option ℚ
  action : Option String
  embedding : Option Embedding
  createdAt : Nat
  updatedAt : Nat
deriving DecidableEq, Repr

/-- The relational state: the three tables plus the `memory.id` serial
sequence counter. -/
structure DB where
  stories : List StoryRow
  messages : List MessageRow
  memories : List MemoryRow
  nextMemoryId : Nat
deriving DecidableEq, Repr

/-! ## Memory store search

`searchSimilarMemories` embeds the drizzle query

```
select memory, 1 - cosineDistance(memory.embedding, q) as similarity
from memory
where memory.user_id = userId and similarity > minSimilarity
order by similarity desc
limit topK
```

The pgvector cosine-distance operator is an external collaborator; it enters
as the parameter `dist`.  A row whose `embedding` is NULL has NULL
similarity, and `NULL > minSimilarity` is false in SQL, so such rows never
match the `where` clause. -/

/-- Similarity of a row against a query embedding: `1 - cosine_distance`,
`none` when the row has no embedding (SQL NULL). -/
def rowSimilarity (dist : Embedding → Embedding → ℚ) (q : Embedding)
    (m : MemoryRow) : Option ℚ :=
  m.embedding.map (fun e => 1 - dist q e)

/-- Descending order on (row, similarity) pairs, used for `order by
similarity desc`. -/
def simDescRel (a b : MemoryRow × ℚ) : Prop := b.2 ≤ a.2

instance : DecidableRel simDescRel := fun a b => by
  unfold simDescRel; infer_instance

instance : IsTotal (MemoryRow × ℚ) simDescRel :=
  ⟨fun a b => le_total b.2 a.2⟩

instance : IsTrans (MemoryRow × ℚ) simDescRel :=
  ⟨fun _ _ _ h h' => le_trans h' h⟩

/-- Single-query top-K cosine search over the memory table
(`searchSimilarMemories` in the source; the copy in the search module and
the copy in the monolithic memory module are line-for-line the same
query). -/
def searchSimilarMemories (memories : List MemoryRow)
    (dist : Embedding → Embedding → ℚ) (queryEmbedding : Embedding)
    (topK : Nat) (userId : String) (minSimilarity : ℚ) :
    List (MemoryRow × ℚ) :=
  let matching := memories.filterMap (fun m =>
    match rowSimilarity dist queryEmbedding m with
    | some s =>
        if m.userId = userId ∧ minSimilarity < s then some (m, s) else none
    | none => none)
  (matching.insertionSort simDescRel).take topK

/-- Bulk fan-out search: one result list per query embedding, in input
order (`bulkSearchSimilarMemories`). -/
def bulkSearchSimilarMemories (memories : List MemoryRow)
    (dist : Embedding → Embedding → ℚ) (queries : List Embedding)
    (topK : Nat) (userId : String) (minSimilarity : ℚ) :
    List (List (MemoryRow × ℚ)) :=
  queries.map (fun q =>
    searchSimilarMemories memories dist q topK userId minSimilarity)

/-! ## The LLM gateway and external collaborators

`Response` (structured completion), `Embed` (embedding) and the pgvector
cosine-distance operator are external collaborators.  They enter the model
as an environment of pure functions: the gateway is idempotent from the
system's perspective, so a pure oracle per run is faithful.  `now` is the
wall clock used for the `updated_at` / `created_at` columns (`defaultNow` /
`$onUpdate` in the schema). -/

/-- A fact returned by the FactRetrieval schema:
`{text, category, importance, confidence}`. -/
structure RetrievedFact where
  text : String
  category : String
  importance : ℚ
  confidence : ℚ
deriving DecidableEq, Repr

/-- `event` of the MemoryUpdate schema: `"ADD" | "UPDATE"`. -/
inductive MemoryEvent where
  | ADD
  | UPDATE
deriving DecidableEq, Repr

/-- A decision returned by the MemoryUpdate schema:
`{id: string, event, text: string}` (`id` lives in the unified
namespace). -/
structure MemoryUpdateDecision where
  id : String
  event : MemoryEvent
  text : String
deriving DecidableEq, Repr

/-- An entry of the unified new-facts list handed to the decision prompt. -/
structure UnifiedFact where
  id : String
  text : String
  category : String
  importance : ℚ
  confidence : ℚ
deriving DecidableEq, Repr

/-- The run environment: LLM completion oracles (one per schema), the
embedding provider, the pgvector cosine distance, and the clock. -/
structure Env where
  retrieveFacts : String → List RetrievedFact
  decideMemoryUpdates :
    List (String × String) → List UnifiedFact → List MemoryUpdateDecision
  embed : String → Embedding
  dist : Embedding → Embedding → ℚ
  now : Nat

/-! ## Handlers (Stage 2 rendering) -/

/-- JS template-literal interpolation of a possibly-missing string field:
`undefined` prints as `"undefined"`. -/
def jsFieldString : Option String → String
  | some s => s
  | none => "undefined"

/-- `simpleHandler.messageToString`: renders a stored message to one line.
It reads the raw stored content without schema validation. -/
def simpleMessageToString (ct : ContentType) (c : SimpleContent) : String :=
  match ct with
  | .query => "User: " ++ jsFieldString c.question
  | .response => "Assistant: " ++ jsFieldString c.answer

/-- The handler registry, restricted to the simple handler (the one the
claims exercise).  An unregistered name throws `UnknownHandler`, modelled
as `none`. -/
def handlerMessageToString (handler : String) (ct : ContentType)
    (c : SimpleContent) : Option String :=
  if handler = "simple" then some (simpleMessageToString ct c) else none

/-- The simple handler's zod content schemas: a query needs a nonempty
`question`, a response a nonempty `answer`.  Used to state claims about
schema-invalid messages; the extraction path itself never runs this. -/
def simpleContentValid (ct : ContentType) (c : SimpleContent) : Bool :=
  match ct with
  | .query => match c.question with
    | some q => 1 ≤ q.length
    | none => false
  | .response => match c.answer with
    | some a => 1 ≤ a.length
    | none => false

/-! ## Stage 1: load pending messages -/

/-- A row of the Stage-1 select: the message joined to its story's id and
handler name. -/
structure PendingMessage where
  msg : MessageRow
  storyId : Nat
  storyHandler : String
deriving DecidableEq, Repr

/-- `order by message.created_at asc`. -/
def createdAtLe (a b : PendingMessage) : Prop :=
  a.msg.createdAt ≤ b.msg.createdAt

instance : DecidableRel createdAtLe := fun a b => by
  unfold createdAtLe; infer_instance

instance : IsTotal PendingMessage createdAtLe :=
  ⟨fun a b => le_total a.msg.createdAt b.msg.createdAt⟩

instance : IsTrans PendingMessage createdAtLe :=
  ⟨fun _ _ _ h h' => le_trans h h'⟩

/-- Stage 1: every message with `extracted = false` whose story belongs to
`userId`, inner-joined to its story, ordered by `created_at` ascending. -/
def loadPendingMessages (db : DB) (userId : String) : List PendingMessage :=
  (db.messages.filterMap (fun m =>
    match db.stories.find? (fun s => s.id == m.storyId) with
    | some s =>
        if s.userId = userId ∧ m.extracted = false then
          some { msg := m, storyId := s.id, storyHandler := s.handler }
        else none
    | none => none)).insertionSort createdAtLe

/-! ## Stage 2: render the conversation -/

/-- `formatMessagesForFactExtraction`: renders each loaded message through
its story's handler and joins with blank lines; `none` when a handler name
is unregistered (the thrown `UnknownHandler` aborts the run). -/
def formatMessagesForFactExtraction (msgs : List PendingMessage) :
    Option String :=
  if msgs.isEmpty then some ""
  else
    (msgs.mapM (fun pm =>
      handlerMessageToString pm.storyHandler pm.msg.contentType
        pm.msg.content)).map (String.intercalate "\n\n")

/-! ## Stage 4: resolution context -/

def SIMILAR_MEMORY_TOP_K : Nat := 3

def MIN_MEMORY_SIMILARITY : ℚ := 7/10

/-- The JS `Map`-based deduplication loop of `buildExistingMemoryContext`:
walk the flattened results; keep the first occurrence of each memory id
with its (coalesced) content, in first-encounter order. -/
def collectUniqueMemories (seen : List Nat) :
    List (MemoryRow × ℚ) → List (Nat × String)
  | [] => []
  | (m, _) :: rest =>
      if m.id ∈ seen then collectUniqueMemories seen rest
      else (m.id, m.content.getD "") :: collectUniqueMemories (m.id :: seen) rest

/-- An existing memory handed to the decision prompt, with its compact
unified id. -/
structure ExistingMemory where
  unifiedId : String
  originalId : Nat
  text : String
deriving DecidableEq, Repr

/-- `Array.from(uniqueMemories.values()).map((mem, index) => …)`:
unified ids `"1", "2", …` in first-encounter order. -/
def withUnifiedIds : Nat → List (Nat × String) → List ExistingMemory
  | _, [] => []
  | i, (mid, text) :: rest =>
      { unifiedId := toString (i + 1), originalId := mid, text := text } ::
        withUnifiedIds (i + 1) rest

/-- Stage 4: bulk-search the fact embeddings (`top_k = 3`,
`min_similarity = 0.7`), flatten, deduplicate by memory id (first
occurrence wins), assign unified ids. -/
def buildExistingMemoryContext (db : DB)
    (dist : Embedding → Embedding → ℚ) (userId : String)
    (factEmbeddings : List Embedding) : List ExistingMemory :=
  if factEmbeddings.isEmpty then []
  else
    let similar := bulkSearchSimilarMemories db.memories dist factEmbeddings
      SIMILAR_MEMORY_TOP_K userId MIN_MEMORY_SIMILARITY
    withUnifiedIds 0 (collectUniqueMemories [] similar.flatten)

/-- The unified ids of the new facts, starting at `startFactId`
(`facts.map((fact, index) => ({id: String(startFactId + index), …}))`). -/
def unifiedFactsOf : Nat → List RetrievedFact → List UnifiedFact
  | _, [] => []
  | i, f :: rest =>
      { id := toString i, text := f.text, category := f.category,
        importance := f.importance, confidence := f.confidence } ::
        unifiedFactsOf (i + 1) rest

/-! ## Stage 5: build the decision plan -/

/-- JS `parseInt(s, 10)`: skip leading whitespace, optional sign, longest
digit run; `NaN` (here `none`) when no digit follows. -/
def leadingDigitsVal (cs : List Char) : Option Nat :=
  let ds := cs.takeWhile Char.isDigit
  if ds.isEmpty then none
  else some (ds.foldl (fun a c => a * 10 + (c.toNat - 48)) 0)

def jsParseInt (s : String) : Option Int :=
  let cs := s.toList.dropWhile (fun c =>
    c = ' ' ∨ c = '\t' ∨ c = '\n' ∨ c = '\r')
  match cs with
  | '-' :: rest => (leadingDigitsVal rest).map (fun n => -(n : Int))
  | '+' :: rest => (leadingDigitsVal rest).map (fun n => (n : Int))
  | rest => (leadingDigitsVal rest).map (fun n => (n : Int))

/-- A resolved decision of the plan: `ADD(text, metadata, embeddingKey)` or
`UPDATE(memoryIndex, text, embeddingKey)`. -/
inductive PreparedDecision where
  | add (text category : String) (importance confidence : ℚ)
      (embeddingKey : String)
  | update (memoryIndex : Nat) (text : String) (embeddingKey : String)
deriving DecidableEq, Repr

def PreparedDecision.embeddingKey : PreparedDecision → String
  | .add _ _ _ _ k => k
  | .update _ _ k => k

/-- The `text → embedding` map, as an insertion-ordered association list
(JS `Map`). -/
abbrev EmbeddingMap := List (String × Embedding)

def mapHas (m : EmbeddingMap) (k : String) : Bool :=
  m.any (fun p => p.1 == k)

def mapGet (m : EmbeddingMap) (k : String) : Option Embedding :=
  (m.find? (fun p => p.1 == k)).map (fun p => p.2)

def mapSet (m : EmbeddingMap) (k : String) (v : Embedding) : EmbeddingMap :=
  if mapHas m k then m.map (fun p => if p.1 == k then (k, v) else p)
  else m ++ [(k, v)]

/-- Seeding loop: every fact text maps to its Stage-3 embedding; a repeated
text keeps the first index's embedding (`if (!embeddingByText.has(...))`). -/
def seedEmbeddingMap (facts : List RetrievedFact)
    (factEmbeddings : List Embedding) : EmbeddingMap :=
  (facts.zip factEmbeddings).foldl
    (fun m fe => if mapHas m fe.1.text then m else mapSet m fe.1.text fe.2) []

/-- `queueEmbedding`: skip empty text (JS falsy), texts already embedded,
and texts already queued. -/
def queueEmbedding (m₀ : EmbeddingMap) (queued : List String)
    (t : String) : List String :=
  if t = "" ∨ mapHas m₀ t ∨ t ∈ queued then queued else queued ++ [t]

/-- Resolution of one LLM decision against the unified namespace.
An unparsable id, an out-of-range fact index, or an out-of-range memory
index drops the decision (`continue`).  An `ADD` whose `text` is empty
falls back to the source fact's text. -/
def prepareDecision (facts : List RetrievedFact) (startFactId : Nat)
    (existingLen : Nat) (d : MemoryUpdateDecision) :
    Option PreparedDecision :=
  match jsParseInt d.id with
  | none => none
  | some decisionId =>
      match d.event with
      | .ADD =>
          let factIndex : Int := decisionId - startFactId
          if factIndex < 0 then none
          else
            match facts.get? factIndex.toNat with
            | none => none
            | some fact =>
                let text := if d.text.length ≠ 0 then d.text else fact.text
                some (.add text fact.category fact.importance
                  fact.confidence text)
      | .UPDATE =>
          let memoryIndex : Int := decisionId - 1
          if memoryIndex < 0 ∨ (existingLen : Int) ≤ memoryIndex then none
          else some (.update memoryIndex.toNat d.text d.text)

/-- The plan: decisions plus the text→embedding map.
The source builds `prepared` and the to-embed queue in one loop; queueing
reads only the fixed seeded map and never feeds back into `prepared`, so
the loop splits into a `filterMap` (the prepared decisions, one per kept
LLM decision, in order) and a fold collecting each kept decision's
embedding key.  The queued texts are then batch-embedded and written into
the map. -/
structure DecisionPlan where
  decisions : List PreparedDecision
  embeddingByText : EmbeddingMap
deriving Repr

def buildDecisionPlan (env : Env) (facts : List RetrievedFact)
    (factEmbeddings : List Embedding) (existingLen startFactId : Nat)
    (decisions : List MemoryUpdateDecision) : DecisionPlan :=
  let m₀ := seedEmbeddingMap facts factEmbeddings
  let prepared := decisions.filterMap
    (prepareDecision facts startFactId existingLen)
  let queued := prepared.foldl
    (fun q p => queueEmbedding m₀ q p.embeddingKey) []
  let m := queued.foldl (fun m t => mapSet m t (env.embed t)) m₀
  { decisions := prepared, embeddingByText := m }

/-! ## Stage 6: apply (and the message flagging) -/

/-- One `update(message).set({extracted: true}).where(id = msgId)`
statement; the schema's `$onUpdate` hook refreshes `updated_at`. -/
def markOneMessage (db : DB) (msgId : Nat) (now : Nat) : DB :=
  { db with messages := db.messages.map (fun m =>
      if m.id = msgId then { m with extracted := true, updatedAt := now }
      else m) }

/-- `markMessagesAsExtracted`: one update statement per message id, in
order.  `fail k` decides whether the k-th write statement of the run
fails; the loop stops at the first failure, keeping the earlier writes
(each statement commits on its own when no transaction surrounds the
loop).  Returns the state, the next statement index, and whether every
statement succeeded. -/
def markMessagesRun (fail : Nat → Bool) (now : Nat) :
    List Nat → Nat → DB → DB × Nat × Bool
  | [], k, db => (db, k, true)
  | msgId :: rest, k, db =>
      if fail k then (db, k, false)
      else markMessagesRun fail now rest (k + 1) (markOneMessage db msgId now)

/-- `tx.insert(memory).values({...})` for an ADD decision. -/
def insertMemoryRow (db : DB) (userId text category : String)
    (importance confidence : ℚ) (embedding : Embedding) (now : Nat) : DB :=
  { db with
    memories := db.memories ++ [{
      id := db.nextMemoryId, userId := userId, content := some text,
      prevContent := none, category := some category,
      importance := some importance, confidence := some confidence,
      action := some "ADD", embedding := some embedding,
      createdAt := now, updatedAt := now }],
    nextMemoryId := db.nextMemoryId + 1 }

/-- `tx.update(memory).set({content, prevContent, embedding, action:
"UPDATE"}).where(id = targetId)`; `$onUpdate` refreshes `updated_at`. -/
def updateMemoryRow (db : DB) (targetId : Nat) (text prevText : String)
    (embedding : Embedding) (now : Nat) : DB :=
  { db with memories := db.memories.map (fun m =>
      if m.id = targetId then
        { m with
          content := some text,
          prevContent := some prevText,
          embedding := some embedding,
          action := some "UPDATE",
          updatedAt := now }
      else m) }

/-- One iteration of the decision loop inside the transaction.  A decision
whose embedding key misses the map, or an UPDATE whose target index misses
`existingMemories`, is skipped (`continue`).  The state is
`(db, statement counter, memoriesAdded, memoriesUpdated)`; `none` means a
statement failed, which aborts the transaction. -/
def applyOneDecision (fail : Nat → Bool) (now : Nat)
    (embMap : EmbeddingMap) (existing : List ExistingMemory)
    (userId : String) (st : DB × Nat × Nat × Nat) (d : PreparedDecision) :
    Option (DB × Nat × Nat × Nat) :=
  let (db, k, added, updated) := st
  match mapGet embMap d.embeddingKey with
  | none => some st
  | some embedding =>
      match d with
      | .add text category importance confidence _ =>
          if fail k then none
          else some (insertMemoryRow db userId text category importance
            confidence embedding now, k + 1, added + 1, updated)
      | .update memoryIndex text _ =>
          match existing.get? memoryIndex with
          | none => some st
          | some target =>
              if fail k then none
              else some (updateMemoryRow db target.originalId text
                target.text embedding now, k + 1, added, updated + 1)

def runDecisions (fail : Nat → Bool) (now : Nat) (embMap : EmbeddingMap)
    (existing : List ExistingMemory) (userId : String) :
    List PreparedDecision → (DB × Nat × Nat × Nat) →
    Option (DB × Nat × Nat × Nat)
  | [], st => some st
  | d :: rest, st =>
      match applyOneDecision fail now embMap existing userId st d with
      | none => none
      | some st' => runDecisions fail now embMap existing userId rest st'

/-- `applyDecisionPlan`: one `db.transaction` around the decision loop and
the message flagging.  Any statement failure inside rolls the whole
transaction back (the original state is returned with no stats). -/
def applyDecisionPlan (fail : Nat → Bool) (now : Nat) (userId : String)
    (plan : DecisionPlan) (existing : List ExistingMemory)
    (messageIds : List Nat) (db : DB) : DB × Option (Nat × Nat) :=
  match runDecisions fail now plan.embeddingByText existing userId
      plan.decisions (db, 0, 0, 0) with
  | none => (db, none)
  | some (db', k, added, updated) =>
      let (db'', _, ok) := markMessagesRun fail now messageIds k db'
      if ok then (db'', some (added, updated)) else (db, none)

/-! ## The extraction pipeline entry point -/

/-- The returned stats tuple. -/
structure MemoryExtractionStats where
  factsExtracted : Nat
  memoriesAdded : Nat
  memoriesUpdated : Nat
  messagesExtracted : Nat
deriving DecidableEq, Repr

def EMPTY_STATS : MemoryExtractionStats :=
  { factsExtracted := 0, memoriesAdded := 0, memoriesUpdated := 0,
    messagesExtracted := 0 }

/-- `extractMemory(userId)`: the staged pipeline.  Returns the final state
and `some stats` on success, `none` when the run aborted (unknown handler,
or a failed write statement; a failure inside the Stage-6 transaction
rolls back, a failure in the loose marking loop of the empty-facts path
keeps the earlier marks). -/
def extractMemory (env : Env) (fail : Nat → Bool) (userId : String)
    (db : DB) : DB × Option MemoryExtractionStats :=
  let pendingMessages := loadPendingMessages db userId
  if pendingMessages.isEmpty then (db, some EMPTY_STATS)
  else
    match formatMessagesForFactExtraction pendingMessages with
    | none => (db, none)
    | some conversation =>
        let facts := env.retrieveFacts conversation
        if facts.isEmpty then
          let (db', _, ok) := markMessagesRun fail env.now
            (pendingMessages.map (fun pm => pm.msg.id)) 0 db
          (db', if ok then
            some { EMPTY_STATS with
              messagesExtracted := pendingMessages.length }
          else none)
        else
          let factTexts := facts.map RetrievedFact.text
          let factEmbeddings := factTexts.map env.embed
          let existingMemories := buildExistingMemoryContext db env.dist
            userId factEmbeddings
          let startFactId := existingMemories.length + 1
          let decisions := env.decideMemoryUpdates
            (existingMemories.map (fun em => (em.unifiedId, em.text)))
            (unifiedFactsOf startFactId facts)
          let plan := buildDecisionPlan env facts factEmbeddings
            existingMemories.length startFactId decisions
          match applyDecisionPlan fail env.now userId plan existingMemories
              (pendingMessages.map (fun pm => pm.msg.id)) db with
          | (dbF, none) => (dbF, none)
          | (db', some (added, updated)) =>
              (db', some {
                factsExtracted := facts.length,
                memoriesAdded := added,
                memoriesUpdated := updated,
                messagesExtracted := pendingMessages.length })

/-! ## The debounced extraction scheduler

`debounceMemoryExtraction` (the native-deduplication variant of the queue
module) runs over the BullMQ backend.  The backend is an external
collaborator; its deduplicated add is modelled from the spec's queue
contract: adding under an existing deduplication key postpones the pending
job's firing time to `now + debounceDelay` and replaces its payload while
`first_queued_at` persists; the key is released when the job fires.  On a
`schedule` call the source first checks the pending job: an `active` job is
left alone; a job pending for more than `maxWait` is promoted — the
deduplication key is removed and an extraction is started immediately;
otherwise the deduplicated add postpones the timer.  Workers are modelled
as draining a fired job at its firing time; the model records the instants
extractions start. -/

structure QueueCfg where
  debounceDelay : Nat
  maxWait : Nat
deriving DecidableEq, Repr

/-- The deduplicated pending job for one user. -/
structure PendingJob where
  firstQueuedAt : Nat
  fireAt : Nat
deriving DecidableEq, Repr

/-- Scheduler state for one user: the pending deduplicated job, and the
times at which extractions have started. -/
structure SchedState where
  job : Option PendingJob
  starts : List Nat
deriving DecidableEq, Repr

def initialSchedState : SchedState := { job := none, starts := [] }

/-- Timer semantics: if the pending job's firing time has passed by wall
time `t`, it fired — an extraction started at `fireAt` and the
deduplication key expired (its TTL equals the delay). -/
def fireDueJob (s : SchedState) (t : Nat) : SchedState :=
  match s.job with
  | some j =>
      if j.fireAt ≤ t then { job := none, starts := s.starts ++ [j.fireAt] }
      else s
  | none => s

/-- One `debounceMemoryExtraction(userId)` call at wall time `t`. -/
def scheduleCall (cfg : QueueCfg) (s : SchedState) (t : Nat) : SchedState :=
  let s := fireDueJob s t
  match s.job with
  | some j =>
      if cfg.maxWait < t - j.firstQueuedAt then
        { job := none, starts := s.starts ++ [t] }
      else
        { s with
          job := some {
            firstQueuedAt := j.firstQueuedAt,
            fireAt := t + cfg.debounceDelay } }
  | none =>
      { s with
        job := some {
          firstQueuedAt := t,
          fireAt := t + cfg.debounceDelay } }

/-- After the last call, a still-pending job fires when its timer
expires. -/
def drainTimers (s : SchedState) : SchedState :=
  match s.job with
  | some j => { job := none, starts := s.starts ++ [j.fireAt] }
  | none => s

/-- The start times of the extractions produced by a sequence of
`schedule` calls at the given (strictly increasing) wall times. -/
def runSchedule (cfg : QueueCfg) (calls : List Nat) : SchedState :=
  drainTimers (calls.foldl (scheduleCall cfg) initialSchedState)

def extractionStarts (cfg : QueueCfg) (calls : List Nat) : List Nat :=
  (runSchedule cfg calls).starts

/-! ## Prompt memory recall formatting (simple handler) -/

/-- Zero-pad a digit string on the left to `k` characters. -/
def leftPadZeros (s : String) (k : Nat) : String :=
  String.mk (List.replicate (k - s.length) '0') ++ s

/-- Decimal rendering of the value `n / 10 ^ k` with exactly `k` digits
after the point (`k = 0`: an integer). -/
def renderScaled (n : Int) (k : Nat) : String :=
  let sign := if n < 0 then "-" else ""
  let a := n.natAbs
  if k = 0 then sign ++ toString a
  else
    let base := 10 ^ k
    sign ++ toString (a / base) ++ "." ++ leftPadZeros (toString (a % base)) k

/-- Multiplicity of `p` in `n`, by fuel recursion so that concrete values
evaluate inside the kernel. -/
def countFactorAux (p : Nat) : Nat → Nat → Nat
  | 0, _ => 0
  | fuel + 1, m =>
      if 2 ≤ p ∧ m ≠ 0 ∧ m % p = 0 then countFactorAux p fuel (m / p) + 1
      else 0

def countFactor (p n : Nat) : Nat := countFactorAux p n n

/-- The number of decimal digits needed for an exact finite expansion of
`q` (when its reduced denominator is of the form 2^a·5^b). -/
def decimalExponent (q : ℚ) : Nat :=
  max (countFactor 2 q.den) (countFactor 5 q.den)

/-- JS number-to-string under template interpolation: the shortest decimal
expansion, no trailing zeros.  Exact for rationals with a finite decimal
expansion — the values the claims and counterexamples use. -/
def jsNumberToString (q : ℚ) : String :=
  let k := decimalExponent q
  renderScaled ((q.num * (10 : Int) ^ k) / (q.den : Int)) k

/-- JS `Number.prototype.toFixed(digits)`: fixed-point rendering with
`digits` decimals, rounding to nearest (half away from zero). -/
def jsToFixed (digits : Nat) (q : ℚ) : String :=
  let scaled : ℚ := q * (10 : ℚ) ^ digits
  let m : Int := if 0 ≤ q then ⌊scaled + 1/2⌋ else -(⌊-scaled + 1/2⌋)
  renderScaled m digits

/-- The bracketed metadata entries of one recall line: a truthy (non-null,
nonempty) `category` verbatim, a non-null `importance` via plain number
interpolation, a non-null `confidence` via `toFixed(2)`. -/
def formatMemoryMetadata (m : MemoryRow) : List String :=
  (match m.category with
   | some c => if c ≠ "" then ["category: " ++ c] else []
   | none => []) ++
  (match m.importance with
   | some v => ["importance: " ++ jsNumberToString v]
   | none => []) ++
  (match m.confidence with
   | some v => ["confidence: " ++ jsToFixed 2 v]
   | none => [])

/-- One recall line: `"- "` then the content (`"(No stored content)"` for
NULL), then the optional ` [… | …]` metadata block. -/
def formatMemoryLine (m : MemoryRow) : String :=
  let memoryContent := m.content.getD "(No stored content)"
  let metadata := formatMemoryMetadata m
  let metadataBlock :=
    if metadata.length > 0 then
      " [" ++ String.intercalate " | " metadata ++ "]"
    else ""
  "- " ++ memoryContent ++ metadataBlock

/-- `formatMemories` of the simple handler: the sentinel for an empty
search result, otherwise one line per memory joined by newlines. -/
def formatMemories (results : List (MemoryRow × ℚ)) : String :=
  if results.isEmpty then "(No relevant memories found)"
  else String.intercalate "\n" (results.map (fun r => formatMemoryLine r.1))

/-! ### C8: recall formatting -/

/-- The claim's reading of the metadata block, for comparison: importance
formatted to two decimals like confidence.  (The source interpolates
`importance` without `toFixed`.) -/
def claimedFormatMemoryMetadata (m : MemoryRow) : List String :=
  (match m.category with
   | some c => if c ≠ "" then ["category: " ++ c] else []
   | none => []) ++
  (match m.importance with
   | some v => ["importance: " ++ jsToFixed 2 v]
   | none => []) ++
  (match m.confidence with
   | some v => ["confidence: " ++ jsToFixed 2 v]
   | none => [])

def claimedFormatMemories (results : List (MemoryRow × ℚ)) : String :=
  if results.isEmpty then "(No relevant memories found)"
  else String.intercalate "\n" (results.map (fun r =>
    let metadata := claimedFormatMemoryMetadata r.1
    let metadataBlock :=
      if metadata.length > 0 then
        " [" ++ String.intercalate " | " metadata ++ "]"
      else ""
    "- " ++ r.1.content.getD "(No stored content)" ++ metadataBlock))

/-- A concrete recalled memory with `importance = confidence = 0.5`. -/
def recallDemoRow : MemoryRow where
  id := 1
  userId := "u"
  content := some "likes tea"
  prevContent := none
  category := none
  importance := some (1/2)
  confidence := some (1/2)
  action := none
  embedding := none
  createdAt := 0
  updatedAt := 0

/-! ### C5: debounce scheduling, maximum-wait promotion and latency -/

/-- The claim's premise on a call sequence: consecutive `schedule` calls
are in increasing order with gaps smaller than the debounce delay. -/
def callGapRel (cfg : QueueCfg) (a b : Nat) : Prop :=
  a < b ∧ b < a + cfg.debounceDelay

instance (cfg : QueueCfg) : DecidableRel (callGapRel cfg) := fun a b => by
  unfold callGapRel; infer_instance

/-- Gap condition as a computable check, to evaluate concrete call lists. -/
def gapsOk (cfg : QueueCfg) : List Nat → Bool
  | [] => true
  | [_] => true
  | a :: b :: rest =>
      decide (callGapRel cfg a b) && gapsOk cfg (b :: rest)

/-- The production profile (`debounceDelay = 30 s`, `maxWait = 300 s`,
measured in seconds). -/
def prodQueueCfg : QueueCfg := ⟨30, 300⟩

/-- The maximum-wait scenario: a call every 20 s for six minutes. -/
def maxWaitCalls : List Nat :=
  [0, 20, 40, 60, 80, 100, 120, 140, 160, 180, 200, 220, 240, 260, 280,
    300, 320]

/-! ### C7: Stage-4 deduplication and the unified id namespace -/

/-- Reference form of "deduplicate, first occurrence wins, first-encounter
order": keep each head and drop its later duplicates. -/
def firstOccurrences : List Nat → List Nat
  | [] => []
  | x :: xs => x :: firstOccurrences (xs.filter (fun y => !(y == x)))
termination_by l => l.length
decreasing_by
  simp only [List.length_cons]
  exact Nat.lt_succ_of_le (List.length_filter_le _ _)

/-- Concrete Stage-4 scenario for the C7 witness: two queries, both hitting
memory 5 (whose id therefore repeats across the flattened results) and
memory 7 (content NULL). -/
def c7Rows : List MemoryRow :=
  [⟨5, "u", some "likes tea", none, none, none, none, none, some [1], 0, 0⟩,
   ⟨7, "u", none, none, none, none, none, none, some [2], 0, 0⟩]

def c7DB : DB := ⟨[], [], c7Rows, 8⟩

def c7Dist : Embedding → Embedding → ℚ := fun _ _ => 0

def c7Fact : RetrievedFact := ⟨"has a cat", "pets", 1, 1⟩

/-! ### Shared pipeline lemmas (message flagging, decision-loop frame) -/

/-- Reference form for "all the listed messages got flagged": the marking
fold with no failure. -/
def markAllMessages (now : Nat) (ids : List Nat) (db : DB) : DB :=
  ids.foldl (fun d i => markOneMessage d i now) db

/-- Frame relation between an original memory row and its state after the
decision loop: identity, owner, metadata and creation time never change;
the row is either untouched or carries the effect of an UPDATE decision —
`prev_content` set to the original (coalesced) content, `action` set to
`"UPDATE"`, `updated_at` refreshed — and then its id is among the
targets. -/
def memFrame (now : Nat) (targets : List Nat) (m m' : MemoryRow) : Prop :=
  m'.id = m.id ∧ m'.userId = m.userId ∧ m'.category = m.category ∧
  m'.importance = m.importance ∧ m'.confidence = m.confidence ∧
  m'.createdAt = m.createdAt ∧
  (m' = m ∨ (m'.prevContent = some (m.content.getD "") ∧
    m'.action = some "UPDATE" ∧ m'.updatedAt = now ∧ m'.id ∈ targets))

/-- Shape of a row inserted by an ADD decision. -/
def addedRowOk (u : String) (now nextId : Nat) (m' : MemoryRow) : Prop :=
  m'.userId = u ∧ m'.action = some "ADD" ∧ m'.prevContent = none ∧
  nextId ≤ m'.id ∧ m'.createdAt = now ∧ m'.updatedAt = now

/-- State frame through the Stage-6 decision loop: stories and messages
untouched, every original row index satisfies `memFrame`, every appended
index holds a fresh ADD row. -/
def decisionFrame (db₀ : DB) (u : String) (now : Nat) (targets : List Nat)
    (db' : DB) : Prop :=
  db'.stories = db₀.stories ∧
  db'.messages = db₀.messages ∧
  db₀.nextMemoryId ≤ db'.nextMemoryId ∧
  db₀.memories.length ≤ db'.memories.length ∧
  (∀ i m m', db₀.memories.get? i = some m →
    db'.memories.get? i = some m' → memFrame now targets m m') ∧
  (∀ i m', db₀.memories.length ≤ i → db'.memories.get? i = some m' →
    addedRowOk u now db₀.nextMemoryId m')

/-- The ids selected by Stage 1 (`pendingMessages.map(msg => msg.id)`). -/
def pendingIds (db : DB) (u : String) : List Nat :=
  (loadPendingMessages db u).map (fun pm => pm.msg.id)

/-- The conversation a run renders (`none` = unknown handler aborts). -/
def runConversation (db : DB) (u : String) : Option String :=
  formatMessagesForFactExtraction (loadPendingMessages db u)

/-- The facts the run retrieves for its rendered conversation. -/
def runFacts (env : Env) (db : DB) (u : String) : List RetrievedFact :=
  env.retrieveFacts ((runConversation db u).getD "")

/-- The Stage-3 embeddings of the run's facts. -/
def runFactEmbeddings (env : Env) (db : DB) (u : String) : List Embedding :=
  ((runFacts env db u).map RetrievedFact.text).map env.embed

/-- The Stage-4 context of the run and the ids of its target rows. -/
def runExistingMemories (env : Env) (db : DB) (u : String) :
    List ExistingMemory :=
  buildExistingMemoryContext db env.dist u (runFactEmbeddings env db u)

def runTargetIds (env : Env) (db : DB) (u : String) : List Nat :=
  (runExistingMemories env db u).map (fun e => e.originalId)

/-- Concrete pipeline environment: one fact, one UPDATE decision, length
embeddings, equality-based distance, clock at 9. -/
def pipeEnv : Env where
  retrieveFacts := fun _ => [⟨"abc", "c", 1, 1⟩]
  decideMemoryUpdates := fun _ _ => [⟨"1", .UPDATE, "new"⟩]
  embed := fun t => [(t.length : ℚ)]
  dist := fun q e => if q = e then 0 else 1
  now := 9

def noFail : Nat → Bool := fun _ => false

/-- Concrete store: one story of user `u` with two pending messages, one
memory row (content NULL) that the fact embedding matches. -/
def pipeDB : DB where
  stories := [⟨1, "u", "s", "simple"⟩]
  messages :=
    [⟨1, 1, .query, ⟨some "hi", none⟩, false, 0, 0⟩,
     ⟨2, 1, .response, ⟨none, some "hello"⟩, false, 1, 1⟩]
  memories :=
    [⟨5, "u", none, none, none, none, none, none, some [3], 0, 0⟩]
  nextMemoryId := 6

/-- The state `extract` leaves behind on `pipeDB`: both messages flagged
(`updated_at` refreshed to 9), memory 5 updated to `"new"` with
`prev_content = some ""`. -/
def pipeDBAfter : DB where
  stories := [⟨1, "u", "s", "simple"⟩]
  messages :=
    [⟨1, 1, .query, ⟨some "hi", none⟩, true, 0, 9⟩,
     ⟨2, 1, .response, ⟨none, some "hello"⟩, true, 1, 9⟩]
  memories :=
    [⟨5, "u", some "new", some "", none, none, none, some "UPDATE",
      some [3], 0, 9⟩]
  nextMemoryId := 6

/-! ### C1: Stage-6 atomicity -/

/-- Environment whose fact retrieval returns no facts (empty-facts path). -/
def c1Env : Env := { pipeEnv with retrieveFacts := fun _ => [] }

/-- Failure schedule: the second write statement of the run fails. -/
def failSecond : Nat → Bool := fun k => k == 1

/-- The state the failed empty-facts run leaves: message 1 flagged,
message 2 still pending — a partial write. -/
def pipeDBTorn : DB where
  stories := [⟨1, "u", "s", "simple"⟩]
  messages :=
    [⟨1, 1, .query, ⟨some "hi", none⟩, true, 0, 9⟩,
     ⟨2, 1, .response, ⟨none, some "hello"⟩, false, 1, 1⟩]
  memories :=
    [⟨5, "u", none, none, none, none, none, none, some [3], 0, 0⟩]
  nextMemoryId := 6

/-- A second concrete store whose memory 5 has non-NULL content. -/
def pipeDB2 : DB :=
  { pipeDB with memories :=
      [⟨5, "u", some "old", none, none, none, none, none, some [3], 0, 0⟩] }

/-- Its state after the successful run: content `"new"`,
`prev_content = some "old"`. -/
def pipeDB2After : DB :=
  { pipeDBAfter with memories :=
      [⟨5, "u", some "new", some "old", none, none, none, some "UPDATE",
        some [3], 0, 9⟩] }

/-! ### C4: schema-invalid messages in Stage 2 -/

/-- Store with a schema-valid query and a schema-invalid one (no
`question` field). -/
def c4DB : DB where
  stories := [⟨1, "u", "s", "simple"⟩]
  messages :=
    [⟨1, 1, .query, ⟨some "hi", none⟩, false, 0, 0⟩,
     ⟨2, 1, .query, ⟨none, none⟩, false, 1, 1⟩]
  memories := []
  nextMemoryId := 1

/-- The state the successful empty-facts run leaves on `c4DB`: both
messages (the invalid one included) flagged. -/
def c4DBAfter : DB where
  stories := [⟨1, "u", "s", "simple"⟩]
  messages :=
    [⟨1, 1, .query, ⟨some "hi", none⟩, true, 0, 9⟩,
     ⟨2, 1, .query, ⟨none, none⟩, true, 1, 9⟩]
  memories := []
  nextMemoryId := 1

/-- Concrete data for the C9 witness. -/
def c9Fact : RetrievedFact := ⟨"likes tea", "c", 1, 1⟩

def c9EmptyFact : RetrievedFact := ⟨"", "c", 1, 1⟩

/-! ### C6: contract of the store search -/

/-- C6: The search returns at most `top_k` rows, each owned by `user_id`,
each with similarity `1 - dist` strictly above `min_similarity`, sorted by
similarity descending; the empty store yields the (valid) empty result. -/
theorem searchSimilarMemories_contract (memories : List MemoryRow)
    (dist : Embedding → Embedding → ℚ) (q : Embedding) (topK : Nat)
    (userId : String) (minSimilarity : ℚ) :
    (searchSimilarMemories memories dist q topK userId minSimilarity).length
        ≤ topK ∧
    (∀ r ∈ searchSimilarMemories memories dist q topK userId minSimilarity,
      r.1 ∈ memories ∧ r.1.userId = userId ∧ minSimilarity < r.2 ∧
        rowSimilarity dist q r.1 = some r.2) ∧
    List.Sorted simDescRel
      (searchSimilarMemories memories dist q topK userId minSimilarity) ∧
    searchSimilarMemories [] dist q topK userId minSimilarity = [] := by
  unfold searchSimilarMemories
  simp only []
  refine ⟨?_, ?_, ?_, by simp⟩
  · simp only [List.length_take]
    exact min_le_left _ _
  · intro r hr
    have hr' : r ∈ (List.filterMap _ memories).insertionSort simDescRel :=
      List.mem_of_mem_take hr
    have hr'' : r ∈ List.filterMap (fun m =>
        match rowSimilarity dist q m with
        | some s =>
            if m.userId = userId ∧ minSimilarity < s then some (m, s) else none
        | none => none) memories :=
      (List.perm_insertionSort simDescRel _).subset hr'
    rcases List.mem_filterMap.1 hr'' with ⟨m, hm, hval⟩
    rcases hsim : rowSimilarity dist q m with _ | s
    · rw [hsim] at hval; simp at hval
    · rw [hsim] at hval
      by_cases hc : m.userId = userId ∧ minSimilarity < s
      · simp only [if_pos hc] at hval
        cases hval
        exact ⟨hm, hc.1, hc.2, hsim⟩
      · simp only [if_neg hc] at hval
        cases hval
  · exact List.Pairwise.take (List.sorted_insertionSort simDescRel _)

/-- C8 counterexample: at a memory with `importance = 0.5` the formatter
emits `importance: 0.5`, not the two-decimal `importance: 0.50` the claim
demands — only `confidence` goes through `toFixed(2)`. -/
theorem formatMemories_importance_raw_cex :
    formatMemories [(recallDemoRow, 1)] =
      "- likes tea [importance: 0.5 | confidence: 0.50]" ∧
    claimedFormatMemories [(recallDemoRow, 1)] =
      "- likes tea [importance: 0.50 | confidence: 0.50]" ∧
    formatMemories [(recallDemoRow, 1)] ≠
      claimedFormatMemories [(recallDemoRow, 1)] := by
  refine ⟨?_, ?_, ?_⟩ <;> decide

/-- C8 (amended): the empty result yields the sentinel; otherwise one line
per memory joined by newlines, each line `"- "` followed by the content and
the optional bracketed metadata, in which `confidence` is formatted to two
decimals while `category` and `importance` are rendered verbatim (plain JS
number interpolation for `importance`). -/
theorem formatMemories_recall_format :
    formatMemories [] = "(No relevant memories found)" ∧
    (∀ results : List (MemoryRow × ℚ), results ≠ [] →
      formatMemories results =
        String.intercalate "\n"
          (results.map (fun r => formatMemoryLine r.1))) ∧
    (∀ m : MemoryRow, ∃ rest : String,
      formatMemoryLine m = "- " ++ rest) ∧
    (∀ m : MemoryRow, ∀ v : ℚ, m.confidence = some v →
      ("confidence: " ++ jsToFixed 2 v) ∈ formatMemoryMetadata m) ∧
    (∀ m : MemoryRow, ∀ v : ℚ, m.importance = some v →
      ("importance: " ++ jsNumberToString v) ∈ formatMemoryMetadata m) := by
  refine ⟨rfl, ?_, ?_, ?_, ?_⟩
  · intro results h
    rw [formatMemories, if_neg]
    simp [List.isEmpty_iff, h]
  · intro m
    exact ⟨_, rfl⟩
  · intro m v hv
    simp [formatMemoryMetadata, hv]
  · intro m v hv
    simp [formatMemoryMetadata, hv]

/-- C8 witness: the amended statement at the concrete demo row. -/
theorem formatMemories_recall_format_witness :
    formatMemories [(recallDemoRow, 1)] =
      String.intercalate "\n"
        ([(recallDemoRow, (1 : ℚ))].map (fun r => formatMemoryLine r.1)) ∧
    ("confidence: " ++ jsToFixed 2 (1/2)) ∈ formatMemoryMetadata recallDemoRow ∧
    ("importance: " ++ jsNumberToString (1/2)) ∈
      formatMemoryMetadata recallDemoRow :=
  ⟨formatMemories_recall_format.2.1 _ (by decide),
   formatMemories_recall_format.2.2.2.1 recallDemoRow (1/2) (by decide),
   formatMemories_recall_format.2.2.2.2 recallDemoRow (1/2) (by decide)⟩

theorem gapsOk_chain' (cfg : QueueCfg) :
    ∀ calls : List Nat, gapsOk cfg calls = true →
      List.Chain' (callGapRel cfg) calls := by
  intro calls
  induction calls with
  | nil => intro _; exact List.chain'_nil
  | cons a rest ih =>
      cases rest with
      | nil => intro _; simp
      | cons b rest' =>
          intro h
          rw [gapsOk, Bool.and_eq_true] at h
          exact List.chain'_cons.2 ⟨of_decide_eq_true h.1, ih h.2⟩

/-- C5 counterexample: with calls every 20 s (gaps < `D_debounce = 30 s`),
the promotion fires only on the first call strictly beyond `D_max_wait`
(here at t = 320 s), so the single extraction starts after
`first_call + D_max_wait = 300 s`, refuting the claimed latency bound. -/
theorem schedule_latency_cex :
    List.Chain' (callGapRel prodQueueCfg) maxWaitCalls ∧
    extractionStarts prodQueueCfg maxWaitCalls = [320] ∧
    (∀ t ∈ extractionStarts prodQueueCfg maxWaitCalls,
      ¬ t ≤ 0 + prodQueueCfg.maxWait) := by
  refine ⟨gapsOk_chain' _ _ (by decide), by decide, by decide⟩

theorem mem_starts_scheduleCall (cfg : QueueCfg) (s : SchedState) (t x : Nat)
    (hx : x ∈ s.starts) : x ∈ (scheduleCall cfg s t).starts := by
  unfold scheduleCall fireDueJob
  rcases s with ⟨_ | j, starts⟩
  · exact hx
  · dsimp only
    by_cases hfire : j.fireAt ≤ t
    · rw [if_pos hfire]
      dsimp only
      by_cases hw : cfg.maxWait < t - j.firstQueuedAt
      all_goals simp [hw, List.mem_append, hx]
    · rw [if_neg hfire]
      dsimp only
      by_cases hw : cfg.maxWait < t - j.firstQueuedAt
      all_goals simp [hw, List.mem_append, hx]

theorem mem_starts_foldl (cfg : QueueCfg) (calls : List Nat)
    (s : SchedState) (x : Nat) (hx : x ∈ s.starts) :
    x ∈ (calls.foldl (scheduleCall cfg) s).starts := by
  induction calls generalizing s with
  | nil => exact hx
  | cons t rest ih =>
      exact ih _ (mem_starts_scheduleCall cfg s t x hx)

theorem mem_starts_drainTimers (s : SchedState) (x : Nat)
    (hx : x ∈ s.starts) : x ∈ (drainTimers s).starts := by
  unfold drainTimers
  rcases s with ⟨_ | j, starts⟩
  · exact hx
  · simp [List.mem_append, hx]

theorem schedule_latency_aux (cfg : QueueCfg) (first : Nat) :
    ∀ (rest : List Nat) (prev : Nat) (started : List Nat),
      List.Chain' (callGapRel cfg) (prev :: rest) →
      first ≤ prev → prev ≤ first + cfg.maxWait →
      ∃ x ∈ (drainTimers (rest.foldl (scheduleCall cfg)
          ⟨some ⟨first, prev + cfg.debounceDelay⟩, started⟩)).starts,
        x ≤ first + cfg.maxWait + cfg.debounceDelay := by
  intro rest
  induction rest with
  | nil =>
      intro prev started _ _ hprev
      refine ⟨prev + cfg.debounceDelay, ?_, by omega⟩
      simp [drainTimers, List.mem_append]
  | cons t rest ih =>
      intro prev started hchain hfirst hprev
      obtain ⟨⟨hlt, hgap⟩, hchain'⟩ := List.chain'_cons.1 hchain
      have hstep : scheduleCall cfg
          ⟨some ⟨first, prev + cfg.debounceDelay⟩, started⟩ t =
          if cfg.maxWait < t - first then ⟨none, started ++ [t]⟩
          else ⟨some ⟨first, t + cfg.debounceDelay⟩, started⟩ := by
        unfold scheduleCall fireDueJob
        have hnf : ¬ prev + cfg.debounceDelay ≤ t := by omega
        by_cases hw : cfg.maxWait < t - first
        · simp [hnf, hw]
        · simp [hnf, hw]
      simp only [List.foldl_cons, hstep]
      by_cases hw : cfg.maxWait < t - first
      · rw [if_pos hw]
        refine ⟨t, ?_, by omega⟩
        exact mem_starts_drainTimers _ _
          (mem_starts_foldl cfg rest _ t (by simp [List.mem_append]))
      · rw [if_neg hw]
        exact ih t started hchain' (by omega) (by omega)

/-- C5 (amended): (1) on a `schedule` call at time `t`, a still-pending
job older than `maxWait` is promoted — the deduplication key is released
(`job := none`) and an extraction starts at `t`; (2) consequently, for any
sequence of calls with gaps smaller than `D_debounce`, an extraction
starts no later than `first_call + D_max_wait + D_debounce` (the
`+ D_debounce` slack is necessary: the promotion check is strict and runs
only on calls, see the counterexample). -/
theorem schedule_promotion_and_latency :
    (∀ (cfg : QueueCfg) (s : SchedState) (t : Nat) (j : PendingJob),
      (fireDueJob s t).job = some j →
      cfg.maxWait < t - j.firstQueuedAt →
      scheduleCall cfg s t = ⟨none, (fireDueJob s t).starts ++ [t]⟩) ∧
    (∀ (cfg : QueueCfg) (c : Nat) (rest : List Nat),
      List.Chain' (callGapRel cfg) (c :: rest) →
      ∃ x ∈ extractionStarts cfg (c :: rest),
        x ≤ c + cfg.maxWait + cfg.debounceDelay) := by
  constructor
  · intro cfg s t j hj hw
    simp only [scheduleCall, hj, if_pos hw]
  · intro cfg c rest hchain
    have hfirst : (scheduleCall cfg initialSchedState c) =
        ⟨some ⟨c, c + cfg.debounceDelay⟩, []⟩ := by
      unfold scheduleCall fireDueJob initialSchedState
      simp
    unfold extractionStarts runSchedule
    simp only [List.foldl_cons, hfirst]
    exact schedule_latency_aux cfg c rest c [] hchain (le_refl c) (by omega)

/-- C5 witness: the amended statement at concrete inputs — a pending job
336 s old is promoted at its `schedule` call with the key released, and
the two-call sequence `[0, 20]` starts an extraction by `0 + 300 + 30`. -/
theorem schedule_promotion_and_latency_witness :
    scheduleCall prodQueueCfg ⟨some ⟨0, 340⟩, []⟩ 320 = ⟨none, [320]⟩ ∧
    ∃ x ∈ extractionStarts prodQueueCfg [0, 20],
      x ≤ 0 + prodQueueCfg.maxWait + prodQueueCfg.debounceDelay := by
  constructor
  · have h := schedule_promotion_and_latency.1 prodQueueCfg
      ⟨some ⟨0, 340⟩, []⟩ 320 ⟨0, 340⟩ (by decide) (by decide)
    rw [h]
    decide
  · exact schedule_promotion_and_latency.2 prodQueueCfg 0 [20]
      (gapsOk_chain' _ _ (by decide))

theorem collectUniqueMemories_not_seen (l : List (MemoryRow × ℚ)) :
    ∀ (seen : List Nat) (p : Nat × String),
      p ∈ collectUniqueMemories seen l → p.1 ∉ seen := by
  induction l with
  | nil => intro seen p hp; simp [collectUniqueMemories] at hp
  | cons r rest ih =>
      intro seen p hp
      rw [collectUniqueMemories] at hp
      by_cases hid : r.1.id ∈ seen
      · rw [if_pos hid] at hp
        exact ih seen p hp
      · rw [if_neg hid] at hp
        rcases List.mem_cons.1 hp with hh | ht
        · subst hh; exact hid
        · have := ih _ p ht
          intro hcontra
          exact this (List.mem_cons_of_mem _ hcontra)

theorem collectUniqueMemories_ids (l : List (MemoryRow × ℚ)) :
    ∀ seen : List Nat,
      (collectUniqueMemories seen l).map Prod.fst =
        firstOccurrences ((l.map (fun r => r.1.id)).filter
          (fun y => decide (y ∉ seen))) := by
  induction l with
  | nil => intro seen; simp [collectUniqueMemories, firstOccurrences]
  | cons r rest ih =>
      intro seen
      rw [collectUniqueMemories]
      by_cases hid : r.1.id ∈ seen
      · rw [if_pos hid]
        rw [ih seen]
        congr 1
        simp only [List.map_cons, List.filter_cons]
        rw [if_neg (by simp [hid])]
      · rw [if_neg hid]
        simp only [List.map_cons, List.filter_cons]
        rw [if_pos (by simp [hid])]
        rw [firstOccurrences]
        simp only [List.map_cons, List.cons.injEq, true_and]
        rw [ih (r.1.id :: seen)]
        congr 1
        rw [List.filter_filter]
        apply List.filter_congr
        intro y _
        by_cases h1 : y = r.1.id
        · simp [h1]
        · by_cases h2 : y ∈ seen <;> simp [h1, h2]

theorem collectUniqueMemories_first_content (l : List (MemoryRow × ℚ)) :
    ∀ (seen : List Nat) (p : Nat × String),
      p ∈ collectUniqueMemories seen l →
      ∃ r, l.find? (fun r' => r'.1.id == p.1) = some r ∧
        p.2 = r.1.content.getD "" := by
  induction l with
  | nil => intro seen p hp; simp [collectUniqueMemories] at hp
  | cons r rest ih =>
      intro seen p hp
      rw [collectUniqueMemories] at hp
      by_cases hid : r.1.id ∈ seen
      · rw [if_pos hid] at hp
        have hne : r.1.id ≠ p.1 := by
          intro h
          exact collectUniqueMemories_not_seen rest seen p hp (h ▸ hid)
        obtain ⟨r', hfind, hcontent⟩ := ih seen p hp
        refine ⟨r', ?_, hcontent⟩
        rw [List.find?_cons_of_neg _ (by simp [hne]), hfind]
      · rw [if_neg hid] at hp
        rcases List.mem_cons.1 hp with hh | ht
        · subst hh
          exact ⟨r, by rw [List.find?_cons_of_pos _ (by simp)], rfl⟩
        · have hnotin := collectUniqueMemories_not_seen rest _ p ht
          have hne : r.1.id ≠ p.1 := by
            intro h
            exact hnotin (h ▸ List.mem_cons_self _ _)
          obtain ⟨r', hfind, hcontent⟩ := ih _ p ht
          refine ⟨r', ?_, hcontent⟩
          rw [List.find?_cons_of_neg _ (by simp [hne]), hfind]

theorem withUnifiedIds_get? (l : List (Nat × String)) :
    ∀ i j : Nat,
      (withUnifiedIds i l).get? j = (l.get? j).map
        (fun p => ⟨toString (i + j + 1), p.1, p.2⟩) := by
  induction l with
  | nil => intro i j; simp [withUnifiedIds]
  | cons p rest ih =>
      intro i j
      cases j with
      | zero => simp [withUnifiedIds]
      | succ j' =>
          rw [withUnifiedIds]
          simp only [List.get?_cons_succ]
          rw [ih (i + 1) j']
          congr 2
          funext q
          congr 2
          omega

theorem unifiedFactsOf_get? (facts : List RetrievedFact) :
    ∀ i j : Nat,
      (unifiedFactsOf i facts).get? j = (facts.get? j).map
        (fun f => ⟨toString (i + j), f.text, f.category, f.importance,
          f.confidence⟩) := by
  induction facts with
  | nil => intro i j; simp [unifiedFactsOf]
  | cons f rest ih =>
      intro i j
      cases j with
      | zero => simp [unifiedFactsOf]
      | succ j' =>
          rw [unifiedFactsOf]
          simp only [List.get?_cons_succ]
          rw [ih (i + 1) j']
          congr 2
          funext g
          congr 2
          omega

theorem withUnifiedIds_map_originalId (l : List (Nat × String)) :
    ∀ i : Nat, (withUnifiedIds i l).map (fun e => e.originalId) =
      l.map Prod.fst := by
  induction l with
  | nil => intro i; simp [withUnifiedIds]
  | cons p rest ih =>
      intro i
      rw [withUnifiedIds]
      simp only [List.map_cons]
      rw [ih (i + 1)]

theorem withUnifiedIds_mem (l : List (Nat × String)) :
    ∀ (i : Nat) (e : ExistingMemory), e ∈ withUnifiedIds i l →
      ∃ p ∈ l, e.originalId = p.1 ∧ e.text = p.2 := by
  induction l with
  | nil => intro i e he; simp [withUnifiedIds] at he
  | cons p rest ih =>
      intro i e he
      rw [withUnifiedIds] at he
      rcases List.mem_cons.1 he with hh | ht
      · exact ⟨p, List.mem_cons_self _ _, by rw [hh], by rw [hh]⟩
      · obtain ⟨q, hq, h1, h2⟩ := ih (i + 1) e ht
        exact ⟨q, List.mem_cons_of_mem _ hq, h1, h2⟩

theorem buildExistingMemoryContext_eq (db : DB)
    (dist : Embedding → Embedding → ℚ) (userId : String)
    (factEmbeddings : List Embedding) :
    buildExistingMemoryContext db dist userId factEmbeddings =
      withUnifiedIds 0 (collectUniqueMemories []
        ((bulkSearchSimilarMemories db.memories dist factEmbeddings
          SIMILAR_MEMORY_TOP_K userId MIN_MEMORY_SIMILARITY).flatten)) := by
  unfold buildExistingMemoryContext
  by_cases hemp : factEmbeddings.isEmpty
  · rw [if_pos hemp]
    unfold bulkSearchSimilarMemories
    rw [List.isEmpty_iff.1 hemp]
    simp [collectUniqueMemories, withUnifiedIds]
  · rw [if_neg hemp]

/-- C7: the Stage-4 resolution context.  The flattened bulk-search results
are deduplicated by memory id, first occurrence winning (the kept text is
the first occurrence's coalesced content) in first-encounter order; the
unique memories get unified ids `"1", "2", …` in that order; the facts get
unified ids starting at `len(unique_memories) + 1` in fact order, carrying
the fact's text and metadata. -/
theorem buildExistingMemoryContext_unified_ids (db : DB)
    (dist : Embedding → Embedding → ℚ) (userId : String)
    (factEmbeddings : List Embedding) (facts : List RetrievedFact) :
    (buildExistingMemoryContext db dist userId factEmbeddings).map
        (fun e => e.originalId) =
      firstOccurrences (((bulkSearchSimilarMemories db.memories dist
        factEmbeddings SIMILAR_MEMORY_TOP_K userId
        MIN_MEMORY_SIMILARITY).flatten).map (fun r => r.1.id)) ∧
    (∀ e ∈ buildExistingMemoryContext db dist userId factEmbeddings,
      ∃ r, ((bulkSearchSimilarMemories db.memories dist factEmbeddings
          SIMILAR_MEMORY_TOP_K userId MIN_MEMORY_SIMILARITY).flatten).find?
            (fun r' => r'.1.id == e.originalId) = some r ∧
        e.text = r.1.content.getD "") ∧
    (∀ (j : Nat) (e : ExistingMemory),
      (buildExistingMemoryContext db dist userId factEmbeddings).get? j =
        some e → e.unifiedId = toString (j + 1)) ∧
    (∀ (j : Nat) (u : UnifiedFact) (f : RetrievedFact),
      facts.get? j = some f →
      (unifiedFactsOf
        ((buildExistingMemoryContext db dist userId factEmbeddings).length
          + 1) facts).get? j = some u →
      u = ⟨toString
        ((buildExistingMemoryContext db dist userId factEmbeddings).length
          + 1 + j), f.text, f.category, f.importance, f.confidence⟩) := by
  rw [buildExistingMemoryContext_eq]
  refine ⟨?_, ?_, ?_, ?_⟩
  · rw [withUnifiedIds_map_originalId]
    have h := collectUniqueMemories_ids
      ((bulkSearchSimilarMemories db.memories dist factEmbeddings
        SIMILAR_MEMORY_TOP_K userId MIN_MEMORY_SIMILARITY).flatten) []
    simp only [List.not_mem_nil, not_false_iff, decide_True,
      List.filter_true] at h
    exact h
  · intro e he
    obtain ⟨p, hp, h1, h2⟩ := withUnifiedIds_mem _ _ _ he
    obtain ⟨r, hfind, hcontent⟩ := collectUniqueMemories_first_content _ _ _ hp
    refine ⟨r, ?_, by rw [h2, hcontent]⟩
    rw [h1]
    exact hfind
  · intro j e hj
    rw [withUnifiedIds_get?] at hj
    rcases hget : (collectUniqueMemories []
        ((bulkSearchSimilarMemories db.memories dist factEmbeddings
          SIMILAR_MEMORY_TOP_K userId MIN_MEMORY_SIMILARITY).flatten)).get? j
      with _ | p
    · rw [hget] at hj; simp at hj
    · rw [hget] at hj
      simp only [Option.map_some'] at hj
      cases hj
      simp
  · intro j u f hf hu
    rw [unifiedFactsOf_get?, hf] at hu
    simp only [Option.map_some'] at hu
    injection hu with h
    exact h.symm

/-- C7 witness: the theorem at the concrete scenario — the first context
entry keeps memory 5's first-occurrence content, carries unified id
`"1"` (= `toString (0 + 1)`), and the single fact's unified id is
`toString (len(unique) + 1 + 0)`. -/
theorem buildExistingMemoryContext_unified_ids_witness :
    (∃ r, (((bulkSearchSimilarMemories c7DB.memories c7Dist [[1], [2]]
        SIMILAR_MEMORY_TOP_K "u" MIN_MEMORY_SIMILARITY).flatten).find?
          (fun r' => r'.1.id ==
            (⟨"1", 5, "likes tea"⟩ : ExistingMemory).originalId)) = some r ∧
      (⟨"1", 5, "likes tea"⟩ : ExistingMemory).text =
        r.1.content.getD "") ∧
    (⟨"1", 5, "likes tea"⟩ : ExistingMemory).unifiedId = toString (0 + 1) ∧
    (⟨"3", "has a cat", "pets", 1, 1⟩ : UnifiedFact) =
      ⟨toString
        ((buildExistingMemoryContext c7DB c7Dist "u" [[1], [2]]).length
          + 1 + 0), c7Fact.text, c7Fact.category, c7Fact.importance,
        c7Fact.confidence⟩ := by
  refine ⟨?_, ?_, ?_⟩
  · exact (buildExistingMemoryContext_unified_ids c7DB c7Dist "u"
      [[1], [2]] [c7Fact]).2.1 ⟨"1", 5, "likes tea"⟩ (by decide)
  · exact (buildExistingMemoryContext_unified_ids c7DB c7Dist "u"
      [[1], [2]] [c7Fact]).2.2.1 0 ⟨"1", 5, "likes tea"⟩ (by decide)
  · exact (buildExistingMemoryContext_unified_ids c7DB c7Dist "u"
      [[1], [2]] [c7Fact]).2.2.2 0 ⟨"3", "has a cat", "pets", 1, 1⟩ c7Fact
      (by decide) (by decide)

theorem markAllMessages_stories (now : Nat) :
    ∀ (ids : List Nat) (db : DB),
      (markAllMessages now ids db).stories = db.stories ∧
      (markAllMessages now ids db).memories = db.memories ∧
      (markAllMessages now ids db).nextMemoryId = db.nextMemoryId := by
  intro ids
  induction ids with
  | nil => intro db; exact ⟨rfl, rfl, rfl⟩
  | cons i rest ih =>
      intro db
      exact ih (markOneMessage db i now)

theorem markAllMessages_messages (now : Nat) :
    ∀ (ids : List Nat) (db : DB),
      (markAllMessages now ids db).messages = db.messages.map (fun m =>
        if m.id ∈ ids then { m with extracted := true, updatedAt := now }
        else m) := by
  intro ids
  induction ids with
  | nil =>
      intro db
      simp [markAllMessages]
  | cons i rest ih =>
      intro db
      have hstep : markAllMessages now (i :: rest) db =
          markAllMessages now rest (markOneMessage db i now) := rfl
      rw [hstep, ih]
      unfold markOneMessage
      rw [List.map_map]
      apply List.map_congr_left
      intro m _
      by_cases h1 : m.id = i
      · by_cases h2 : m.id ∈ rest
        all_goals simp [Function.comp, h1, h2]
      · by_cases h2 : m.id ∈ rest
        all_goals simp [Function.comp, h1, h2]

theorem markMessagesRun_spec (fail : Nat → Bool) (now : Nat) :
    ∀ (ids : List Nat) (k : Nat) (db : DB),
      ∃ n, n ≤ ids.length ∧
        (markMessagesRun fail now ids k db).1 =
          markAllMessages now (ids.take n) db ∧
        ((markMessagesRun fail now ids k db).2.2 = true →
          (markMessagesRun fail now ids k db).1 =
            markAllMessages now ids db) := by
  intro ids
  induction ids with
  | nil =>
      intro k db
      exact ⟨0, le_refl 0, rfl, fun _ => rfl⟩
  | cons i rest ih =>
      intro k db
      by_cases hf : fail k
      · refine ⟨0, Nat.zero_le _, ?_, ?_⟩
        · simp [markMessagesRun, hf, markAllMessages]
        · intro hok
          rw [markMessagesRun] at hok
          simp [hf] at hok
      · obtain ⟨n, hn, heq, hok⟩ := ih (k + 1) (markOneMessage db i now)
        refine ⟨n + 1, by simpa using hn, ?_, ?_⟩
        · rw [markMessagesRun, if_neg hf]
          rw [heq]
          rfl
        · intro h
          rw [markMessagesRun, if_neg hf] at h ⊢
          exact hok h

theorem searchSimilarMemories_mem (memories : List MemoryRow)
    (dist : Embedding → Embedding → ℚ) (q : Embedding) (topK : Nat)
    (userId : String) (minSimilarity : ℚ) (r : MemoryRow × ℚ)
    (hr : r ∈ searchSimilarMemories memories dist q topK userId
      minSimilarity) :
    r.1 ∈ memories ∧ r.1.userId = userId ∧ minSimilarity < r.2 ∧
      rowSimilarity dist q r.1 = some r.2 := by
  unfold searchSimilarMemories at hr
  have hr' : r ∈ (List.filterMap _ memories).insertionSort simDescRel :=
    List.mem_of_mem_take hr
  have hr'' : r ∈ List.filterMap (fun m =>
      match rowSimilarity dist q m with
      | some s =>
          if m.userId = userId ∧ minSimilarity < s then some (m, s) else none
      | none => none) memories :=
    (List.perm_insertionSort simDescRel _).subset hr'
  rcases List.mem_filterMap.1 hr'' with ⟨m, hm, hval⟩
  rcases hsim : rowSimilarity dist q m with _ | s
  · rw [hsim] at hval; simp at hval
  · rw [hsim] at hval
    by_cases hc : m.userId = userId ∧ minSimilarity < s
    · simp only [if_pos hc] at hval
      cases hval
      exact ⟨hm, hc.1, hc.2, hsim⟩
    · simp only [if_neg hc] at hval
      cases hval

/-- Every Stage-4 context entry originates from a search-result row owned
by the user: its `originalId` is the row's id and its `text` the row's
coalesced content. -/
theorem buildExistingMemoryContext_targets (db : DB)
    (dist : Embedding → Embedding → ℚ) (userId : String)
    (factEmbeddings : List Embedding) (t : ExistingMemory)
    (ht : t ∈ buildExistingMemoryContext db dist userId factEmbeddings) :
    ∃ m ∈ db.memories, m.id = t.originalId ∧ t.text = m.content.getD "" ∧
      m.userId = userId := by
  rw [buildExistingMemoryContext_eq] at ht
  obtain ⟨p, hp, h1, h2⟩ := withUnifiedIds_mem _ _ _ ht
  obtain ⟨r, hfind, hcontent⟩ := collectUniqueMemories_first_content _ _ _ hp
  have hrmem := List.mem_of_find?_eq_some hfind
  have hrid := List.find?_some hfind
  rcases List.mem_flatten.1 hrmem with ⟨inner, hinner, hrin⟩
  rcases List.mem_map.1 hinner with ⟨qe, _, hq⟩
  subst hq
  obtain ⟨hmem, huser, _, _⟩ := searchSimilarMemories_mem _ _ _ _ _ _ r hrin
  refine ⟨r.1, hmem, ?_, ?_, huser⟩
  · rw [h1]
    exact Nat.eq_of_beq_eq_true (by simpa using hrid)
  · rw [h2, hcontent]

theorem eq_of_mem_of_id_eq :
    ∀ l : List MemoryRow, (l.map (fun m => m.id)).Nodup →
      ∀ a ∈ l, ∀ b ∈ l, a.id = b.id → a = b := by
  intro l
  induction l with
  | nil => intro _ a ha; simp at ha
  | cons x xs ih =>
      intro hnd a ha b hb hab
      rw [List.map_cons, List.nodup_cons] at hnd
      rcases List.mem_cons.1 ha with rfl | ha' <;>
        rcases List.mem_cons.1 hb with rfl | hb'
      · rfl
      · exact absurd (hab ▸ List.mem_map_of_mem (fun m => m.id) hb') hnd.1
      · exact absurd (hab ▸ List.mem_map_of_mem (fun m => m.id) ha') hnd.1
      · exact ih hnd.2 a ha' b hb' hab

theorem decisionFrame_refl (db₀ : DB) (u : String) (now : Nat)
    (targets : List Nat) : decisionFrame db₀ u now targets db₀ := by
  refine ⟨rfl, rfl, le_refl _, le_refl _, ?_, ?_⟩
  · intro i m m' h1 h2
    rw [h1] at h2
    cases h2
    exact ⟨rfl, rfl, rfl, rfl, rfl, rfl, Or.inl rfl⟩
  · intro i m' hi h2
    have := List.get?_eq_none.2 hi
    rw [this] at h2
    cases h2

theorem insertMemoryRow_frame (db₀ : DB) (u : String) (now : Nat)
    (targets : List Nat) (db : DB) (text category : String)
    (importance confidence : ℚ) (embedding : Embedding)
    (hf : decisionFrame db₀ u now targets db) :
    decisionFrame db₀ u now targets
      (insertMemoryRow db u text category importance confidence
        embedding now) := by
  obtain ⟨hs, hm, hnext, hlen, horig, hadd⟩ := hf
  refine ⟨hs, hm, by simp [insertMemoryRow]; omega, ?_, ?_, ?_⟩
  · simp only [insertMemoryRow, List.length_append, List.length_cons,
      List.length_nil]
    omega
  · intro i m m' h1 h2
    have hi : i < db.memories.length := by
      have h1len : i < db₀.memories.length := List.get?_eq_some.1 h1 |>.1
      omega
    rw [insertMemoryRow] at h2
    simp only at h2
    rw [List.get?_append hi] at h2
    exact horig i m m' h1 h2
  · intro i m' hi h2
    rw [insertMemoryRow] at h2
    simp only at h2
    by_cases hlt : i < db.memories.length
    · rw [List.get?_append hlt] at h2
      exact hadd i m' hi h2
    · rw [List.get?_append_right (by omega)] at h2
      rcases hcase : i - db.memories.length with _ | j
      · rw [hcase] at h2
        simp only [List.get?_cons_zero] at h2
        cases h2
        exact ⟨rfl, rfl, rfl, hnext, rfl, rfl⟩
      · rw [hcase] at h2
        simp at h2

theorem updateMemoryRow_frame (db₀ : DB) (u : String) (now : Nat)
    (existing : List ExistingMemory) (db : DB) (t : ExistingMemory)
    (ht : t ∈ existing) (text : String) (embedding : Embedding)
    (hnodup : (db₀.memories.map (fun m => m.id)).Nodup)
    (hbound : ∀ m ∈ db₀.memories, m.id < db₀.nextMemoryId)
    (htarget : ∃ m₀ ∈ db₀.memories, m₀.id = t.originalId ∧
      t.text = m₀.content.getD "" ∧ m₀.userId = u)
    (hf : decisionFrame db₀ u now (existing.map (fun e => e.originalId)) db) :
    decisionFrame db₀ u now (existing.map (fun e => e.originalId))
      (updateMemoryRow db t.originalId text t.text embedding now) := by
  obtain ⟨hs, hm, hnext, hlen, horig, hadd⟩ := hf
  obtain ⟨m₀, hm₀mem, hm₀id, hm₀text, _⟩ := htarget
  refine ⟨hs, hm, hnext, ?_, ?_, ?_⟩
  · simpa [updateMemoryRow] using hlen
  · intro i m m' h1 h2
    rw [updateMemoryRow] at h2
    simp only [List.get?_map] at h2
    rcases hold : db.memories.get? i with _ | mOld
    · rw [hold] at h2; cases h2
    · rw [hold] at h2
      simp only [Option.map_some'] at h2
      have hframe := horig i m mOld h1 hold
      obtain ⟨hid, huser, hcat, himp, hconf, hcreated, hcase⟩ := hframe
      by_cases hhit : mOld.id = t.originalId
      · rw [if_pos hhit] at h2
        cases h2
        have hmmem : m ∈ db₀.memories := List.get?_mem h1
        have hmeq : m = m₀ := by
          apply eq_of_mem_of_id_eq db₀.memories hnodup m hmmem m₀ hm₀mem
          rw [← hid, hhit, hm₀id]
        refine ⟨hid, huser, hcat, himp, hconf, hcreated, Or.inr ?_⟩
        refine ⟨?_, rfl, rfl, ?_⟩
        · rw [hmeq, ← hm₀text]
        · show mOld.id ∈ existing.map (fun e => e.originalId)
          rw [hhit]
          exact List.mem_map_of_mem _ ht
      · rw [if_neg hhit] at h2
        cases h2
        exact ⟨hid, huser, hcat, himp, hconf, hcreated, hcase⟩
  · intro i m' hi h2
    rw [updateMemoryRow] at h2
    simp only [List.get?_map] at h2
    rcases hold : db.memories.get? i with _ | mOld
    · rw [hold] at h2; cases h2
    · rw [hold] at h2
      simp only [Option.map_some'] at h2
      have hok := hadd i mOld hi hold
      have hne : mOld.id ≠ t.originalId := by
        have h1 := hok.2.2.2.1
        have h2' := hbound m₀ hm₀mem
        omega
      rw [if_neg hne] at h2
      cases h2
      exact hok

theorem runDecisions_frame (fail : Nat → Bool) (now : Nat)
    (embMap : EmbeddingMap) (existing : List ExistingMemory) (u : String)
    (db₀ : DB)
    (hnodup : (db₀.memories.map (fun m => m.id)).Nodup)
    (hbound : ∀ m ∈ db₀.memories, m.id < db₀.nextMemoryId)
    (htargets : ∀ t ∈ existing, ∃ m₀ ∈ db₀.memories,
      m₀.id = t.originalId ∧ t.text = m₀.content.getD "" ∧
      m₀.userId = u) :
    ∀ (ds : List PreparedDecision) (st : DB × Nat × Nat × Nat)
      (res : DB × Nat × Nat × Nat),
      decisionFrame db₀ u now (existing.map (fun e => e.originalId)) st.1 →
      runDecisions fail now embMap existing u ds st = some res →
      decisionFrame db₀ u now (existing.map (fun e => e.originalId))
        res.1 := by
  intro ds
  induction ds with
  | nil =>
      intro st res hf hrun
      rw [runDecisions] at hrun
      cases hrun
      exact hf
  | cons d rest ih =>
      intro st res hf hrun
      rw [runDecisions] at hrun
      rcases hstep : applyOneDecision fail now embMap existing u st d
        with _ | st'
      · rw [hstep] at hrun; cases hrun
      · rw [hstep] at hrun
        refine ih st' res ?_ hrun
        obtain ⟨db, k, a, b⟩ := st
        rw [applyOneDecision] at hstep
        rcases hemb : mapGet embMap d.embeddingKey with _ | embedding
        · rw [hemb] at hstep
          simp only at hstep
          cases hstep
          exact hf
        · rw [hemb] at hstep
          cases d with
          | add text category importance confidence key =>
              simp only at hstep
              by_cases hfk : fail k
              · rw [if_pos hfk] at hstep; cases hstep
              · rw [if_neg hfk] at hstep
                cases hstep
                exact insertMemoryRow_frame db₀ u now _ db text category
                  importance confidence embedding hf
          | update memoryIndex text key =>
              simp only at hstep
              rcases htgt : existing.get? memoryIndex with _ | t
              · rw [htgt] at hstep
                simp only at hstep
                cases hstep
                exact hf
              · rw [htgt] at hstep
                simp only at hstep
                by_cases hfk : fail k
                · rw [if_pos hfk] at hstep; cases hstep
                · rw [if_neg hfk] at hstep
                  cases hstep
                  exact updateMemoryRow_frame db₀ u now existing db t
                    (List.get?_mem htgt) text embedding hnodup hbound
                    (htargets t (List.get?_mem htgt)) hf

theorem extractMemory_empty_pending (env : Env) (fail : Nat → Bool)
    (u : String) (db : DB) (h : loadPendingMessages db u = []) :
    extractMemory env fail u db = (db, some EMPTY_STATS) := by
  unfold extractMemory
  rw [h]
  rfl

theorem runDecisions_untouched (fail : Nat → Bool) (now : Nat)
    (embMap : EmbeddingMap) (existing : List ExistingMemory) (u : String) :
    ∀ (ds : List PreparedDecision) (st res : DB × Nat × Nat × Nat),
      runDecisions fail now embMap existing u ds st = some res →
      res.1.stories = st.1.stories ∧ res.1.messages = st.1.messages := by
  intro ds
  induction ds with
  | nil =>
      intro st res hrun
      rw [runDecisions] at hrun
      cases hrun
      exact ⟨rfl, rfl⟩
  | cons d rest ih =>
      intro st res hrun
      rw [runDecisions] at hrun
      rcases hstep : applyOneDecision fail now embMap existing u st d
        with _ | st'
      · rw [hstep] at hrun; cases hrun
      · rw [hstep] at hrun
        have hrec := ih st' res hrun
        obtain ⟨db, k, a, b⟩ := st
        rw [applyOneDecision] at hstep
        rcases hemb : mapGet embMap d.embeddingKey with _ | embedding
        · rw [hemb] at hstep
          simp only at hstep
          cases hstep
          exact hrec
        · rw [hemb] at hstep
          cases d with
          | add text category importance confidence key =>
              simp only at hstep
              by_cases hfk : fail k
              · rw [if_pos hfk] at hstep; cases hstep
              · rw [if_neg hfk] at hstep
                cases hstep
                exact hrec
          | update memoryIndex text key =>
              simp only at hstep
              rcases htgt : existing.get? memoryIndex with _ | t
              · rw [htgt] at hstep
                simp only at hstep
                cases hstep
                exact hrec
              · rw [htgt] at hstep
                simp only at hstep
                by_cases hfk : fail k
                · rw [if_pos hfk] at hstep; cases hstep
                · rw [if_neg hfk] at hstep
                  cases hstep
                  exact hrec

theorem extractMemory_success_messages (env : Env) (fail : Nat → Bool)
    (u : String) (db db' : DB) (stats : MemoryExtractionStats)
    (h : extractMemory env fail u db = (db', some stats)) :
    db'.stories = db.stories ∧
    db'.messages = db.messages.map (fun m =>
      if m.id ∈ pendingIds db u then
        { m with extracted := true, updatedAt := env.now } else m) := by
  simp only [extractMemory] at h
  by_cases hemp : (loadPendingMessages db u).isEmpty = true
  · rw [if_pos hemp] at h
    rw [Prod.mk.injEq] at h
    obtain ⟨h1, _⟩ := h
    subst h1
    refine ⟨rfl, ?_⟩
    have : pendingIds db u = [] := by
      unfold pendingIds
      rw [List.isEmpty_iff.1 hemp]
      rfl
    rw [this]
    simp
  · rw [if_neg hemp] at h
    rcases hconv : formatMessagesForFactExtraction (loadPendingMessages db u)
      with _ | conv
    · rw [hconv] at h
      simp at h
    · rw [hconv] at h
      simp only at h
      by_cases hfacts : (env.retrieveFacts conv).isEmpty = true
      · rw [if_pos hfacts] at h
        rcases hmark : markMessagesRun fail env.now
            ((loadPendingMessages db u).map (fun pm => pm.msg.id)) 0 db
          with ⟨db₁, k₁, ok⟩
        rw [hmark] at h
        simp only at h
        cases ok with
        | false => simp at h
        | true =>
            rw [Prod.mk.injEq] at h
            obtain ⟨h1, _⟩ := h
            subst h1
            obtain ⟨n, _, _, hok⟩ := markMessagesRun_spec fail env.now
              ((loadPendingMessages db u).map (fun pm => pm.msg.id)) 0 db
            have hdb₁ : db₁ = markAllMessages env.now
                ((loadPendingMessages db u).map (fun pm => pm.msg.id)) db := by
              have := hok (by rw [hmark])
              rw [hmark] at this
              exact this
            subst hdb₁
            exact ⟨(markAllMessages_stories env.now _ _).1,
              markAllMessages_messages env.now _ _⟩
      · rw [if_neg hfacts] at h
        rcases happly : applyDecisionPlan fail env.now u
            (buildDecisionPlan env (env.retrieveFacts conv)
              (((env.retrieveFacts conv).map RetrievedFact.text).map env.embed)
              (buildExistingMemoryContext db env.dist u
                (((env.retrieveFacts conv).map RetrievedFact.text).map
                  env.embed)).length
              ((buildExistingMemoryContext db env.dist u
                (((env.retrieveFacts conv).map RetrievedFact.text).map
                  env.embed)).length + 1)
              (env.decideMemoryUpdates
                ((buildExistingMemoryContext db env.dist u
                  (((env.retrieveFacts conv).map RetrievedFact.text).map
                    env.embed)).map (fun em => (em.unifiedId, em.text)))
                (unifiedFactsOf
                  ((buildExistingMemoryContext db env.dist u
                    (((env.retrieveFacts conv).map RetrievedFact.text).map
                      env.embed)).length + 1) (env.retrieveFacts conv))))
            (buildExistingMemoryContext db env.dist u
              (((env.retrieveFacts conv).map RetrievedFact.text).map
                env.embed))
            ((loadPendingMessages db u).map (fun pm => pm.msg.id)) db
          with ⟨dbF, r⟩
        rw [happly] at h
        rcases r with _ | ⟨a, b⟩
        · simp at h
        · simp only at h
          rw [Prod.mk.injEq] at h
          obtain ⟨h1, _⟩ := h
          subst h1
          unfold applyDecisionPlan at happly
          rcases hrun : runDecisions fail env.now _ _ u _ (db, 0, 0, 0)
            with _ | st₁
          · rw [hrun] at happly
            simp at happly
          · rw [hrun] at happly
            obtain ⟨db₁, k₁, a₁, b₁⟩ := st₁
            simp only at happly
            rcases hmark : markMessagesRun fail env.now
                ((loadPendingMessages db u).map (fun pm => pm.msg.id)) k₁ db₁
              with ⟨db₂, k₂, ok⟩
            rw [hmark] at happly
            simp only at happly
            cases ok with
            | false => simp at happly
            | true =>
                simp only [if_true] at happly
                rw [Prod.mk.injEq] at happly
                obtain ⟨h2, _⟩ := happly
                subst h2
                have huntouched := runDecisions_untouched fail env.now _ _ u
                  _ _ _ hrun
                obtain ⟨n, _, _, hok⟩ := markMessagesRun_spec fail env.now
                  ((loadPendingMessages db u).map (fun pm => pm.msg.id))
                  k₁ db₁
                have hdb₂ : db₂ = markAllMessages env.now
                    ((loadPendingMessages db u).map (fun pm => pm.msg.id))
                    db₁ := by
                  have := hok (by rw [hmark])
                  rw [hmark] at this
                  exact this
                subst hdb₂
                constructor
                · rw [(markAllMessages_stories env.now _ _).1]
                  exact huntouched.1
                · rw [markAllMessages_messages env.now _ _]
                  rw [huntouched.2]
                  rfl

theorem extractMemory_success_memories (env : Env) (fail : Nat → Bool)
    (u : String) (db db' : DB) (stats : MemoryExtractionStats)
    (hnodup : (db.memories.map (fun m => m.id)).Nodup)
    (hbound : ∀ m ∈ db.memories, m.id < db.nextMemoryId)
    (h : extractMemory env fail u db = (db', some stats)) :
    db.nextMemoryId ≤ db'.nextMemoryId ∧
    db.memories.length ≤ db'.memories.length ∧
    (∀ i m m', db.memories.get? i = some m →
      db'.memories.get? i = some m' →
      memFrame env.now (runTargetIds env db u) m m') ∧
    (∀ i m', db.memories.length ≤ i → db'.memories.get? i = some m' →
      addedRowOk u env.now db.nextMemoryId m') := by
  have hrefl : ∀ dbx : DB, dbx.memories = db.memories →
      dbx.nextMemoryId = db.nextMemoryId →
      db.nextMemoryId ≤ dbx.nextMemoryId ∧
      db.memories.length ≤ dbx.memories.length ∧
      (∀ i m m', db.memories.get? i = some m →
        dbx.memories.get? i = some m' →
        memFrame env.now (runTargetIds env db u) m m') ∧
      (∀ i m', db.memories.length ≤ i → dbx.memories.get? i = some m' →
        addedRowOk u env.now db.nextMemoryId m') := by
    intro dbx hmem hnext
    refine ⟨le_of_eq hnext.symm, le_of_eq (by rw [hmem]), ?_, ?_⟩
    · intro i m m' h1 h2
      rw [hmem, h1] at h2
      cases h2
      exact ⟨rfl, rfl, rfl, rfl, rfl, rfl, Or.inl rfl⟩
    · intro i m' hi h2
      rw [hmem, List.get?_eq_none.2 hi] at h2
      cases h2
  simp only [extractMemory] at h
  by_cases hemp : (loadPendingMessages db u).isEmpty = true
  · rw [if_pos hemp] at h
    rw [Prod.mk.injEq] at h
    obtain ⟨h1, _⟩ := h
    subst h1
    exact hrefl db rfl rfl
  · rw [if_neg hemp] at h
    rcases hconv : formatMessagesForFactExtraction (loadPendingMessages db u)
      with _ | conv
    · rw [hconv] at h
      simp at h
    · rw [hconv] at h
      simp only at h
      by_cases hfacts : (env.retrieveFacts conv).isEmpty = true
      · rw [if_pos hfacts] at h
        rcases hmark : markMessagesRun fail env.now
            ((loadPendingMessages db u).map (fun pm => pm.msg.id)) 0 db
          with ⟨db₁, k₁, ok⟩
        rw [hmark] at h
        simp only at h
        cases ok with
        | false => simp at h
        | true =>
            rw [Prod.mk.injEq] at h
            obtain ⟨h1, _⟩ := h
            subst h1
            obtain ⟨n, _, _, hok⟩ := markMessagesRun_spec fail env.now
              ((loadPendingMessages db u).map (fun pm => pm.msg.id)) 0 db
            have hdb₁ : db₁ = markAllMessages env.now
                ((loadPendingMessages db u).map (fun pm => pm.msg.id)) db := by
              have := hok (by rw [hmark])
              rw [hmark] at this
              exact this
            subst hdb₁
            exact hrefl _ (markAllMessages_stories env.now _ _).2.1
              (markAllMessages_stories env.now _ _).2.2
      · rw [if_neg hfacts] at h
        have hfactseq : runFacts env db u = env.retrieveFacts conv := by
          unfold runFacts runConversation
          rw [hconv]
          rfl
        have htideq : runTargetIds env db u =
            (buildExistingMemoryContext db env.dist u
              (((env.retrieveFacts conv).map RetrievedFact.text).map
                env.embed)).map (fun e => e.originalId) := by
          unfold runTargetIds runExistingMemories runFactEmbeddings
          rw [hfactseq]
        rcases happly : applyDecisionPlan fail env.now u
            (buildDecisionPlan env (env.retrieveFacts conv)
              (((env.retrieveFacts conv).map RetrievedFact.text).map env.embed)
              (buildExistingMemoryContext db env.dist u
                (((env.retrieveFacts conv).map RetrievedFact.text).map
                  env.embed)).length
              ((buildExistingMemoryContext db env.dist u
                (((env.retrieveFacts conv).map RetrievedFact.text).map
                  env.embed)).length + 1)
              (env.decideMemoryUpdates
                ((buildExistingMemoryContext db env.dist u
                  (((env.retrieveFacts conv).map RetrievedFact.text).map
                    env.embed)).map (fun em => (em.unifiedId, em.text)))
                (unifiedFactsOf
                  ((buildExistingMemoryContext db env.dist u
                    (((env.retrieveFacts conv).map RetrievedFact.text).map
                      env.embed)).length + 1) (env.retrieveFacts conv))))
            (buildExistingMemoryContext db env.dist u
              (((env.retrieveFacts conv).map RetrievedFact.text).map
                env.embed))
            ((loadPendingMessages db u).map (fun pm => pm.msg.id)) db
          with ⟨dbF, r⟩
        rw [happly] at h
        rcases r with _ | ⟨a, b⟩
        · simp at h
        · simp only at h
          rw [Prod.mk.injEq] at h
          obtain ⟨h1, _⟩ := h
          subst h1
          unfold applyDecisionPlan at happly
          rcases hrun : runDecisions fail env.now _ _ u _ (db, 0, 0, 0)
            with _ | st₁
          · rw [hrun] at happly
            simp at happly
          · rw [hrun] at happly
            obtain ⟨db₁, k₁, a₁, b₁⟩ := st₁
            simp only at happly
            rcases hmark : markMessagesRun fail env.now
                ((loadPendingMessages db u).map (fun pm => pm.msg.id)) k₁ db₁
              with ⟨db₂, k₂, ok⟩
            rw [hmark] at happly
            simp only at happly
            cases ok with
            | false => simp at happly
            | true =>
                simp only [if_true] at happly
                rw [Prod.mk.injEq] at happly
                obtain ⟨h2, _⟩ := happly
                subst h2
                have hframe := runDecisions_frame fail env.now _ _ u db
                  hnodup hbound
                  (fun t htmem => buildExistingMemoryContext_targets db
                    env.dist u _ t htmem)
                  _ (db, 0, 0, 0) (db₁, k₁, a₁, b₁)
                  (decisionFrame_refl db u env.now _) hrun
                obtain ⟨_, _, hnext, hlen, horig, hadd⟩ := hframe
                obtain ⟨n, _, _, hok⟩ := markMessagesRun_spec fail env.now
                  ((loadPendingMessages db u).map (fun pm => pm.msg.id))
                  k₁ db₁
                have hdb₂ : db₂ = markAllMessages env.now
                    ((loadPendingMessages db u).map (fun pm => pm.msg.id))
                    db₁ := by
                  have := hok (by rw [hmark])
                  rw [hmark] at this
                  exact this
                subst hdb₂
                have hmm := (markAllMessages_stories env.now
                  ((loadPendingMessages db u).map (fun pm => pm.msg.id))
                  db₁).2.1
                have hmn := (markAllMessages_stories env.now
                  ((loadPendingMessages db u).map (fun pm => pm.msg.id))
                  db₁).2.2
                rw [htideq]
                refine ⟨by rw [hmn]; exact hnext, by rw [hmm]; exact hlen,
                  ?_, ?_⟩
                · intro i m m' h1 h2
                  rw [hmm] at h2
                  exact horig i m m' h1 h2
                · intro i m' hi h2
                  rw [hmm] at h2
                  exact hadd i m' hi h2

theorem extractMemory_failure (env : Env) (fail : Nat → Bool) (u : String)
    (db db' : DB) (h : extractMemory env fail u db = (db', none)) :
    (∃ n, n ≤ (pendingIds db u).length ∧
      db' = markAllMessages env.now ((pendingIds db u).take n) db) ∧
    (∀ conv, runConversation db u = some conv →
      env.retrieveFacts conv ≠ [] → db' = db) := by
  simp only [extractMemory] at h
  by_cases hemp : (loadPendingMessages db u).isEmpty = true
  · rw [if_pos hemp] at h
    simp at h
  · rw [if_neg hemp] at h
    rcases hconv : formatMessagesForFactExtraction (loadPendingMessages db u)
      with _ | conv
    · rw [hconv] at h
      rw [Prod.mk.injEq] at h
      obtain ⟨h1, _⟩ := h
      subst h1
      refine ⟨⟨0, Nat.zero_le _, rfl⟩, ?_⟩
      intro conv hc _
      rfl
    · rw [hconv] at h
      simp only at h
      by_cases hfacts : (env.retrieveFacts conv).isEmpty = true
      · rw [if_pos hfacts] at h
        rcases hmark : markMessagesRun fail env.now
            ((loadPendingMessages db u).map (fun pm => pm.msg.id)) 0 db
          with ⟨db₁, k₁, ok⟩
        rw [hmark] at h
        simp only at h
        cases ok with
        | true => simp at h
        | false =>
            rw [Prod.mk.injEq] at h
            obtain ⟨h1, _⟩ := h
            subst h1
            constructor
            · obtain ⟨n, hn, heq, _⟩ := markMessagesRun_spec fail env.now
                ((loadPendingMessages db u).map (fun pm => pm.msg.id)) 0 db
              rw [hmark] at heq
              exact ⟨n, hn, heq⟩
            · intro conv' hc hne
              rw [runConversation, hconv] at hc
              cases hc
              exact absurd (List.isEmpty_iff.1 hfacts) hne
      · rw [if_neg hfacts] at h
        rcases happly : applyDecisionPlan fail env.now u
            (buildDecisionPlan env (env.retrieveFacts conv)
              (((env.retrieveFacts conv).map RetrievedFact.text).map env.embed)
              (buildExistingMemoryContext db env.dist u
                (((env.retrieveFacts conv).map RetrievedFact.text).map
                  env.embed)).length
              ((buildExistingMemoryContext db env.dist u
                (((env.retrieveFacts conv).map RetrievedFact.text).map
                  env.embed)).length + 1)
              (env.decideMemoryUpdates
                ((buildExistingMemoryContext db env.dist u
                  (((env.retrieveFacts conv).map RetrievedFact.text).map
                    env.embed)).map (fun em => (em.unifiedId, em.text)))
                (unifiedFactsOf
                  ((buildExistingMemoryContext db env.dist u
                    (((env.retrieveFacts conv).map RetrievedFact.text).map
                      env.embed)).length + 1) (env.retrieveFacts conv))))
            (buildExistingMemoryContext db env.dist u
              (((env.retrieveFacts conv).map RetrievedFact.text).map
                env.embed))
            ((loadPendingMessages db u).map (fun pm => pm.msg.id)) db
          with ⟨dbF, r⟩
        rw [happly] at h
        rcases r with _ | ⟨a, b⟩
        · simp only at h
          rw [Prod.mk.injEq] at h
          obtain ⟨h1, _⟩ := h
          subst h1
          have hdbF : dbF = db := by
            unfold applyDecisionPlan at happly
            rcases hrun : runDecisions fail env.now _ _ u _ (db, 0, 0, 0)
              with _ | st₁
            · rw [hrun] at happly
              rw [Prod.mk.injEq] at happly
              exact happly.1.symm
            · rw [hrun] at happly
              obtain ⟨db₁, k₁, a₁, b₁⟩ := st₁
              simp only at happly
              rcases hmark : markMessagesRun fail env.now
                  ((loadPendingMessages db u).map (fun pm => pm.msg.id))
                  k₁ db₁ with ⟨db₂, k₂, ok⟩
              rw [hmark] at happly
              simp only at happly
              cases ok with
              | true => simp at happly
              | false =>
                  simp only [Bool.false_eq_true, if_false] at happly
                  rw [Prod.mk.injEq] at happly
                  exact happly.1.symm
          subst hdbF
          exact ⟨⟨0, Nat.zero_le _, rfl⟩, fun _ _ _ => rfl⟩
        · simp at h

theorem markedRow_storyId (m : MessageRow) (now : Nat) :
    ({ m with extracted := true, updatedAt := now } : MessageRow).storyId
      = m.storyId := rfl

theorem markedRow_extracted (m : MessageRow) (now : Nat) :
    ({ m with extracted := true, updatedAt := now } : MessageRow).extracted
      = true := rfl

theorem extractMemory_success_no_pending (env : Env) (fail : Nat → Bool)
    (u : String) (db db' : DB) (stats : MemoryExtractionStats)
    (h : extractMemory env fail u db = (db', some stats)) :
    loadPendingMessages db' u = [] := by
  obtain ⟨hstories, hmsgs⟩ := extractMemory_success_messages env fail u db
    db' stats h
  unfold loadPendingMessages
  rw [hstories, hmsgs]
  have hnil : (db.messages.map (fun m : MessageRow =>
      if m.id ∈ pendingIds db u then
        { m with extracted := true, updatedAt := env.now } else m)).filterMap
      (fun m =>
        match db.stories.find? (fun s => s.id == m.storyId) with
        | some s =>
            if s.userId = u ∧ m.extracted = false then
              some ({
                msg := m,
                storyId := s.id,
                storyHandler := s.handler } : PendingMessage)
            else none
        | none => none) = [] := by
    rw [List.filterMap_map]
    rw [List.filterMap_eq_nil]
    intro m hm
    simp only [Function.comp]
    by_cases hin : m.id ∈ pendingIds db u
    · rw [if_pos hin]
      rcases hfind : db.stories.find? (fun s => s.id == m.storyId)
        with _ | s <;>
          simp only [markedRow_storyId, markedRow_extracted, hfind] <;> simp
    · rw [if_neg hin]
      rcases hfind : db.stories.find? (fun s => s.id == m.storyId)
        with _ | s
      · rw [hfind]
      · rw [hfind]
        dsimp only
        by_cases hcond : s.userId = u ∧ m.extracted = false
        · exfalso
          apply hin
          unfold pendingIds loadPendingMessages
          apply List.mem_map.2
          refine ⟨⟨m, s.id, s.handler⟩, ?_, rfl⟩
          rw [List.Perm.mem_iff (List.perm_insertionSort createdAtLe _)]
          apply List.mem_filterMap.2
          exact ⟨m, hm, by rw [hfind]; simp [hcond]⟩
        · rw [if_neg hcond]
  rw [hnil]
  rfl

/-- C3: `extract` is idempotent — if `extract(u)` succeeds, a second call
(under any environment and failure schedule) finds no pending message,
returns all-zero stats and leaves every row of the store unchanged. -/
theorem extractMemory_idempotent (env env₂ : Env) (fail fail₂ : Nat → Bool)
    (u : String) (db db' : DB) (stats : MemoryExtractionStats)
    (h : extractMemory env fail u db = (db', some stats)) :
    extractMemory env₂ fail₂ u db' = (db', some EMPTY_STATS) :=
  extractMemory_empty_pending env₂ fail₂ u db'
    (extractMemory_success_no_pending env fail u db db' stats h)

/-- C3 witness: after the successful concrete run on `pipeDB`, a second
`extract` call returns the untouched state and all-zero stats. -/
theorem extractMemory_idempotent_witness :
    extractMemory pipeEnv noFail "u" pipeDBAfter =
      (pipeDBAfter, some EMPTY_STATS) :=
  extractMemory_idempotent pipeEnv pipeEnv noFail noFail "u" pipeDB
    pipeDBAfter ⟨1, 0, 1, 2⟩ (by decide)

/-- C1 counterexample: in the run whose fact list is empty, the message
flagging runs outside any transaction, one statement per message; when the
second statement fails, the run aborts with message 1 flagged and
message 2 still pending — neither "no row changes" nor "every message
flagged". -/
theorem extract_empty_facts_not_atomic_cex :
    extractMemory c1Env failSecond "u" pipeDB = (pipeDBTorn, none) ∧
    runFacts c1Env pipeDB "u" = [] ∧
    pendingIds pipeDB "u" = [1, 2] ∧
    pipeDBTorn ≠ pipeDB ∧
    (∃ m ∈ pipeDBTorn.messages, m.id = 1 ∧ m.extracted = true) ∧
    (∃ m ∈ pipeDBTorn.messages, m.id = 2 ∧ m.extracted = false) := by
  refine ⟨by decide, by decide, by decide, by decide, by decide, by decide⟩

/-- C1 (amended): a successful run flags every loaded message (no pending
message of the user remains).  A failed run that reached the decision path
(nonempty facts) leaves the state exactly unchanged — Stage 6 proper is
transactional.  A failed run in general never touches stories, memories or
the id sequence, and its message writes are precisely the flagging of a
prefix of the Stage-1 ids: the empty-facts path marks messages one
non-transactional statement at a time, so a failure there can leave a
proper prefix flagged. -/
theorem extractMemory_stage6_atomicity (env : Env) (fail : Nat → Bool)
    (u : String) (db db' : DB) (r : Option MemoryExtractionStats)
    (h : extractMemory env fail u db = (db', r)) :
    (∀ stats, r = some stats → loadPendingMessages db' u = []) ∧
    (r = none → ∀ conv, runConversation db u = some conv →
      env.retrieveFacts conv ≠ [] → db' = db) ∧
    (r = none → db'.stories = db.stories ∧ db'.memories = db.memories ∧
      db'.nextMemoryId = db.nextMemoryId ∧
      ∃ n, n ≤ (pendingIds db u).length ∧
        db' = markAllMessages env.now ((pendingIds db u).take n) db) := by
  refine ⟨?_, ?_, ?_⟩
  · intro stats hr
    subst hr
    exact extractMemory_success_no_pending env fail u db db' stats h
  · intro hr
    subst hr
    exact (extractMemory_failure env fail u db db' h).2
  · intro hr
    subst hr
    obtain ⟨⟨n, hn, heq⟩, _⟩ := extractMemory_failure env fail u db db' h
    refine ⟨?_, ?_, ?_, n, hn, heq⟩
    · rw [heq]
      exact (markAllMessages_stories env.now _ _).1
    · rw [heq]
      exact (markAllMessages_stories env.now _ _).2.1
    · rw [heq]
      exact (markAllMessages_stories env.now _ _).2.2

/-- C1 witness: the amended statement at the successful concrete run — no
pending message remains — and at the failed concrete run — stories,
memories and sequence unchanged, messages a marked prefix. -/
theorem extractMemory_stage6_atomicity_witness :
    loadPendingMessages pipeDBAfter "u" = [] ∧
    (pipeDBTorn.stories = pipeDB.stories ∧
      pipeDBTorn.memories = pipeDB.memories ∧
      pipeDBTorn.nextMemoryId = pipeDB.nextMemoryId ∧
      ∃ n, n ≤ (pendingIds pipeDB "u").length ∧
        pipeDBTorn = markAllMessages c1Env.now
          ((pendingIds pipeDB "u").take n) pipeDB) :=
  ⟨(extractMemory_stage6_atomicity pipeEnv noFail "u" pipeDB pipeDBAfter
      (some ⟨1, 0, 1, 2⟩) (by decide)).1 ⟨1, 0, 1, 2⟩ rfl,
   (extractMemory_stage6_atomicity c1Env failSecond "u" pipeDB pipeDBTorn
      none (by decide)).2.2 rfl⟩

/-! ### C2: `prev_content` of committed UPDATEs -/

/-- C2 counterexample: memory 5's content was NULL immediately prior to the
transaction, yet the committed UPDATE writes `prev_content = some ""` (the
search-time coalescing `content ?? ""`), not NULL. -/
theorem update_prev_content_null_cex :
    extractMemory pipeEnv noFail "u" pipeDB = (pipeDBAfter, some ⟨1, 0, 1, 2⟩) ∧
    (pipeDB.memories.get? 0).map (fun m => m.content) = some none ∧
    (pipeDBAfter.memories.get? 0).map (fun m => m.prevContent) =
      some (some "") ∧
    (some "" : Option String) ≠ none := by
  refine ⟨by decide, by decide, by decide, by decide⟩

/-- C2 (amended): for every committed UPDATE — every original row a
successful run changes — the new `prev_content` is the row's
pre-transaction `content` coalesced to the empty string: equal to the old
content whenever that was non-NULL (also when several UPDATE decisions of
one plan target the same memory), and `""` where it was NULL. -/
theorem update_prev_content (env : Env) (fail : Nat → Bool) (u : String)
    (db db' : DB) (stats : MemoryExtractionStats)
    (hnodup : (db.memories.map (fun m => m.id)).Nodup)
    (hbound : ∀ m ∈ db.memories, m.id < db.nextMemoryId)
    (h : extractMemory env fail u db = (db', some stats)) :
    ∀ i m m', db.memories.get? i = some m →
      db'.memories.get? i = some m' → m' ≠ m →
      m'.prevContent = some (m.content.getD "") := by
  intro i m m' h1 h2 hne
  obtain ⟨_, _, horig, _⟩ := extractMemory_success_memories env fail u db
    db' stats hnodup hbound h
  rcases (horig i m m' h1 h2).2.2.2.2.2.2 with heq | hupd
  · exact absurd heq hne
  · exact hupd.1

/-- C2 witness: the amended statement at the concrete run on `pipeDB2` —
the updated row's `prev_content` is the old content `"old"`. -/
theorem update_prev_content_witness :
    (⟨5, "u", some "new", some "old", none, none, none, some "UPDATE",
        some [3], 0, 9⟩ : MemoryRow).prevContent =
      some ((⟨5, "u", some "old", none, none, none, none, none, some [3],
        0, 0⟩ : MemoryRow).content.getD "") :=
  update_prev_content pipeEnv noFail "u" pipeDB2 pipeDB2After ⟨1, 0, 1, 2⟩
    (by decide) (by decide) (by decide) 0 _ _ (by decide) (by decide)
    (by decide)

/-! ### C10: the write frame of `extract` -/

/-- C10 counterexample: the claim allows no change to message columns other
than `extracted`, but the schema's `$onUpdate` hook also refreshes the
flagged messages' `updated_at` (here from 0 to the clock 9). -/
theorem extract_updated_at_cex :
    extractMemory pipeEnv noFail "u" pipeDB = (pipeDBAfter, some ⟨1, 0, 1, 2⟩) ∧
    (pipeDB.messages.get? 0).map (fun m => (m.id, m.updatedAt)) =
      some (1, 0) ∧
    (pipeDBAfter.messages.get? 0).map (fun m => (m.id, m.updatedAt)) =
      some (1, 9) := by
  refine ⟨by decide, by decide, by decide⟩

/-- C10 (amended): a successful `extract(u)` never deletes a row and never
writes `action = "DELETE"`.  Its writes are exactly: inserts of memory
rows owned by `u` with `action = "ADD"` and a fresh id; content updates
(`action = "UPDATE"`, `prev_content`, `embedding`, `updated_at`) of rows
targeted by the Stage-4 similarity context — rows of the store owned by
`u` — leaving their id, owner, metadata and `created_at` unchanged; and
setting `extracted = true` (plus the `$onUpdate`-refreshed `updated_at`)
on exactly the message ids loaded in Stage 1.  Stories, non-loaded
messages, the remaining message columns and untargeted memory rows are
unchanged. -/
theorem extract_write_frame (env : Env) (fail : Nat → Bool) (u : String)
    (db db' : DB) (stats : MemoryExtractionStats)
    (hnodup : (db.memories.map (fun m => m.id)).Nodup)
    (hbound : ∀ m ∈ db.memories, m.id < db.nextMemoryId)
    (h : extractMemory env fail u db = (db', some stats)) :
    db'.stories = db.stories ∧
    db'.messages = db.messages.map (fun m =>
      if m.id ∈ pendingIds db u then
        { m with extracted := true, updatedAt := env.now } else m) ∧
    db.memories.length ≤ db'.memories.length ∧
    (∀ i m m', db.memories.get? i = some m →
      db'.memories.get? i = some m' →
      memFrame env.now (runTargetIds env db u) m m') ∧
    (∀ i m', db.memories.length ≤ i → db'.memories.get? i = some m' →
      addedRowOk u env.now db.nextMemoryId m') ∧
    (∀ tid ∈ runTargetIds env db u, ∃ m₀ ∈ db.memories,
      m₀.id = tid ∧ m₀.userId = u) ∧
    (∀ m' ∈ db'.memories, m'.action = some "DELETE" →
      m' ∈ db.memories) := by
  obtain ⟨hstories, hmsgs⟩ := extractMemory_success_messages env fail u db
    db' stats h
  obtain ⟨hnext, hlen, horig, hadd⟩ := extractMemory_success_memories env
    fail u db db' stats hnodup hbound h
  refine ⟨hstories, hmsgs, hlen, horig, hadd, ?_, ?_⟩
  · intro tid htid
    rcases List.mem_map.1 htid with ⟨e, he, rfl⟩
    obtain ⟨m₀, hm₀, hid, _, huser⟩ :=
      buildExistingMemoryContext_targets db env.dist u
        (runFactEmbeddings env db u) e he
    exact ⟨m₀, hm₀, hid, huser⟩
  · intro m' hm' hdel
    rcases List.mem_iff_get?.1 hm' with ⟨i, hi⟩
    by_cases hlt : i < db.memories.length
    · rcases List.get?_eq_get hlt with h1
      have h1' : db.memories.get? i = some (db.memories.get ⟨i, hlt⟩) := h1
      have hf := horig i _ m' h1' hi
      rcases hf.2.2.2.2.2.2 with heq | hupd
      · rw [heq]
        exact List.get_mem _ _ _
      · rw [hupd.2.1] at hdel
        simp at hdel
    · have := hadd i m' (by omega) hi
      rw [this.2.1] at hdel
      simp at hdel

/-- C10 witness: the amended frame at the concrete run — stories unchanged,
messages are exactly the flagged originals, and the updated memory row
keeps id/owner/metadata while carrying `action = "UPDATE"` with its id
among the Stage-4 targets. -/
theorem extract_write_frame_witness :
    pipeDBAfter.stories = pipeDB.stories ∧
    pipeDBAfter.messages = pipeDB.messages.map (fun m =>
      if m.id ∈ pendingIds pipeDB "u" then
        { m with extracted := true, updatedAt := pipeEnv.now } else m) ∧
    memFrame pipeEnv.now (runTargetIds pipeEnv pipeDB "u")
      ⟨5, "u", none, none, none, none, none, none, some [3], 0, 0⟩
      ⟨5, "u", some "new", some "", none, none, none, some "UPDATE",
        some [3], 0, 9⟩ := by
  have hframe := extract_write_frame pipeEnv noFail "u" pipeDB pipeDBAfter
    ⟨1, 0, 1, 2⟩ (by decide) (by decide) (by decide)
  exact ⟨hframe.1, hframe.2.1,
    hframe.2.2.2.1 0 _ _ (by decide) (by decide)⟩

/-- C4 counterexample: the message whose content fails the simple
handler's query schema is NOT dropped from the rendering — the formatter
never validates, and the missing field interpolates as `undefined`, so the
conversation has a line for it. -/
theorem invalid_content_not_dropped_cex :
    simpleContentValid .query ⟨none, none⟩ = false ∧
    runConversation c4DB "u" = some "User: hi\n\nUser: undefined" ∧
    runConversation c4DB "u" ≠ some "User: hi" := by
  refine ⟨by decide, by decide, by decide⟩

theorem loadPendingMessages_msg_mem (db : DB) (u : String)
    (pm : PendingMessage) (hpm : pm ∈ loadPendingMessages db u) :
    pm.msg ∈ db.messages ∧ pm.msg.id ∈ pendingIds db u := by
  constructor
  · unfold loadPendingMessages at hpm
    rw [List.Perm.mem_iff (List.perm_insertionSort createdAtLe _)] at hpm
    rcases List.mem_filterMap.1 hpm with ⟨m, hm, hval⟩
    rcases hfind : db.stories.find? (fun s => s.id == m.storyId) with _ | s
    · rw [hfind] at hval; cases hval
    · rw [hfind] at hval
      dsimp only at hval
      by_cases hcond : s.userId = u ∧ m.extracted = false
      · rw [if_pos hcond] at hval
        cases hval
        exact hm
      · rw [if_neg hcond] at hval
        cases hval
  · exact List.mem_map_of_mem _ hpm

theorem formatMessages_all_simple (msgs : List PendingMessage)
    (hall : ∀ pm ∈ msgs, pm.storyHandler = "simple") (hne : msgs ≠ []) :
    formatMessagesForFactExtraction msgs =
      some (String.intercalate "\n\n" (msgs.map (fun pm =>
        simpleMessageToString pm.msg.contentType pm.msg.content))) := by
  unfold formatMessagesForFactExtraction
  rw [if_neg (by simp [List.isEmpty_iff, hne])]
  have hmapM : msgs.mapM (fun pm =>
      handlerMessageToString pm.storyHandler pm.msg.contentType
        pm.msg.content) = some (msgs.map (fun pm =>
      simpleMessageToString pm.msg.contentType pm.msg.content)) := by
    clear hne
    induction msgs with
    | nil => rfl
    | cons pm rest ih =>
        rw [List.mapM_cons, List.map_cons]
        rw [handlerMessageToString, if_pos (hall pm (List.mem_cons_self _ _))]
        rw [ih (fun q hq => hall q (List.mem_cons_of_mem _ hq))]
        rfl
  rw [hmapM]
  rfl

/-- C4 (amended): a message whose content fails its handler's schema
validation is NOT dropped from the Stage-2 rendering: with the simple
handler, every loaded message — schema-valid or not — contributes exactly
one line (a missing field interpolating as `undefined`); the run does not
fail on such content, and on success the invalid message is still marked
`extracted = true` like every other loaded message. -/
theorem invalid_content_rendered_and_marked (env : Env) (fail : Nat → Bool)
    (u : String) (db db' : DB) (stats : MemoryExtractionStats) :
    (∀ msgs : List PendingMessage,
      (∀ pm ∈ msgs, pm.storyHandler = "simple") → msgs ≠ [] →
      formatMessagesForFactExtraction msgs =
        some (String.intercalate "\n\n" (msgs.map (fun pm =>
          simpleMessageToString pm.msg.contentType pm.msg.content)))) ∧
    (extractMemory env fail u db = (db', some stats) →
      ∀ pm ∈ loadPendingMessages db u,
        ({ pm.msg with extracted := true, updatedAt := env.now } :
          MessageRow) ∈ db'.messages) := by
  constructor
  · exact formatMessages_all_simple
  · intro h pm hpm
    obtain ⟨_, hmsgs⟩ := extractMemory_success_messages env fail u db db'
      stats h
    rw [hmsgs]
    obtain ⟨hmem, hid⟩ := loadPendingMessages_msg_mem db u pm hpm
    apply List.mem_map.2
    exact ⟨pm.msg, hmem, by rw [if_pos hid]⟩

/-- C4 witness: the amended statement at the concrete store — the rendering
keeps both lines, and after the successful run the schema-invalid message
is flagged. -/
theorem invalid_content_rendered_and_marked_witness :
    formatMessagesForFactExtraction (loadPendingMessages c4DB "u") =
      some (String.intercalate "\n\n"
        ((loadPendingMessages c4DB "u").map (fun pm =>
          simpleMessageToString pm.msg.contentType pm.msg.content))) ∧
    ({ (⟨2, 1, .query, ⟨none, none⟩, false, 1, 1⟩ : MessageRow) with
        extracted := true, updatedAt := c1Env.now } : MessageRow) ∈
      c4DBAfter.messages := by
  constructor
  · exact (invalid_content_rendered_and_marked c1Env noFail "u" c4DB
      c4DBAfter ⟨0, 0, 0, 2⟩).1 (loadPendingMessages c4DB "u") (by decide)
      (by decide)
  · have hload : (⟨⟨2, 1, .query, ⟨none, none⟩, false, 1, 1⟩, 1, "simple"⟩ :
        PendingMessage) ∈ loadPendingMessages c4DB "u" := by decide
    exact (invalid_content_rendered_and_marked c1Env noFail "u" c4DB
      c4DBAfter ⟨0, 0, 0, 2⟩).2 (by decide) _ hload

/-! ### C9: empty decision texts in Stage 5 -/

theorem mapGet_map_replace (t : String) (v : Embedding) :
    ∀ m : EmbeddingMap, mapHas m t = true →
      mapGet (m.map (fun p => if p.1 == t then (t, v) else p)) t =
        some v := by
  intro m
  induction m with
  | nil => intro h; simp [mapHas] at h
  | cons q rest ih =>
      intro h
      by_cases hq : (q.1 == t) = true
      · unfold mapGet
        rw [List.map_cons, if_pos hq]
        rw [List.find?_cons_of_pos _ (by simp)]
        rfl
      · unfold mapGet
        rw [List.map_cons, if_neg hq]
        rw [List.find?_cons_of_neg _ (by simpa using hq)]
        apply ih
        unfold mapHas at h ⊢
        rw [List.any_cons] at h
        simpa [hq] using h

theorem mapGet_append_new (t : String) (v : Embedding) :
    ∀ m : EmbeddingMap, mapHas m t = false →
      mapGet (m ++ [(t, v)]) t = some v := by
  intro m
  induction m with
  | nil =>
      intro _
      unfold mapGet
      rw [List.nil_append, List.find?_cons_of_pos _ (by simp)]
      rfl
  | cons q rest ih =>
      intro h
      unfold mapHas at h
      rw [List.any_cons, Bool.or_eq_false_iff] at h
      unfold mapGet
      rw [List.cons_append, List.find?_cons_of_neg _ (by simp [h.1])]
      exact ih h.2

theorem mapGet_mapSet_self (m : EmbeddingMap) (t : String) (v : Embedding) :
    mapGet (mapSet m t v) t = some v := by
  by_cases hhas : mapHas m t
  · rw [mapSet, if_pos hhas]
    exact mapGet_map_replace t v m hhas
  · rw [mapSet, if_neg hhas]
    exact mapGet_append_new t v m (Bool.not_eq_true _ ▸ hhas)

theorem mapGet_append_ne (t k : String) (v : Embedding) (hne : t ≠ k) :
    ∀ m : EmbeddingMap, mapGet (m ++ [(t, v)]) k = mapGet m k := by
  intro m
  induction m with
  | nil =>
      unfold mapGet
      rw [List.nil_append, List.find?_cons_of_neg _ (by simp [hne])]
  | cons q rest ih =>
      unfold mapGet
      rw [List.cons_append]
      by_cases hqk : (q.1 == k) = true
      · have h1 : List.find? (fun p => p.1 == k)
            (q :: (rest ++ [(t, v)])) = some q :=
          List.find?_cons_of_pos _ hqk
        have h2 : List.find? (fun p => p.1 == k) (q :: rest) = some q :=
          List.find?_cons_of_pos _ hqk
        rw [h1, h2]
      · rw [List.find?_cons_of_neg _ (by simpa using hqk),
          List.find?_cons_of_neg _ (by simpa using hqk)]
        exact ih

theorem mapGet_map_replace_ne (t k : String) (v : Embedding) (hne : t ≠ k) :
    ∀ m : EmbeddingMap,
      mapGet (m.map (fun p => if p.1 == t then (t, v) else p)) k =
        mapGet m k := by
  intro m
  induction m with
  | nil => rfl
  | cons q rest ih =>
      unfold mapGet
      rw [List.map_cons]
      by_cases hq : (q.1 == t) = true
      · rw [if_pos hq]
        rw [List.find?_cons_of_neg _ (by simp [hne])]
        rw [List.find?_cons_of_neg _ (by
          simp only [beq_iff_eq] at hq ⊢
          rw [hq]
          exact hne)]
        exact ih
      · rw [if_neg hq]
        by_cases hqk : (q.1 == k) = true
        · have h1 : List.find? (fun p => p.1 == k)
              (q :: (rest.map (fun p => if p.1 == t then (t, v) else p))) =
              some q :=
            List.find?_cons_of_pos _ hqk
          have h2 : List.find? (fun p => p.1 == k) (q :: rest) = some q :=
            List.find?_cons_of_pos _ hqk
          rw [h1, h2]
        · rw [List.find?_cons_of_neg _ (by simpa using hqk),
            List.find?_cons_of_neg _ (by simpa using hqk)]
          exact ih

theorem mapGet_mapSet_ne (m : EmbeddingMap) (t k : String) (v : Embedding)
    (hne : t ≠ k) : mapGet (mapSet m t v) k = mapGet m k := by
  by_cases hhas : mapHas m t
  · rw [mapSet, if_pos hhas]
    exact mapGet_map_replace_ne t k v hne m
  · rw [mapSet, if_neg hhas]
    exact mapGet_append_ne t k v hne m

theorem mapHas_eq_isSome : ∀ (m : EmbeddingMap) (k : String),
    mapHas m k = (mapGet m k).isSome := by
  intro m k
  induction m with
  | nil => rfl
  | cons q rest ih =>
      unfold mapHas mapGet
      rw [List.any_cons]
      by_cases hq : (q.1 == k) = true
      · have h1 : List.find? (fun p => p.1 == k) (q :: rest) = some q :=
          List.find?_cons_of_pos _ hq
        rw [h1, hq]
        simp
      · rw [List.find?_cons_of_neg _ (by simpa using hq)]
        simp only [hq, Bool.false_or]
        exact ih

theorem mapGet_mapSet_isSome (m : EmbeddingMap) (s t : String)
    (v : Embedding) (h : (mapGet m t).isSome = true) :
    (mapGet (mapSet m s v) t).isSome = true := by
  by_cases hst : s = t
  · subst hst
    rw [mapGet_mapSet_self]
    rfl
  · rw [mapGet_mapSet_ne m s t v hst]
    exact h

theorem seedFold_preserve :
    ∀ (pairs : List (RetrievedFact × Embedding)) (m₀ : EmbeddingMap)
      (t : String), (mapGet m₀ t).isSome = true →
      (mapGet (pairs.foldl (fun m fe =>
        if mapHas m fe.1.text then m else mapSet m fe.1.text fe.2) m₀)
          t).isSome = true := by
  intro pairs
  induction pairs with
  | nil => intro m₀ t h; exact h
  | cons pr rest ih =>
      intro m₀ t h
      rw [List.foldl_cons]
      by_cases hhas : mapHas m₀ pr.1.text
      · rw [if_pos hhas]
        exact ih m₀ t h
      · rw [if_neg hhas]
        exact ih _ t (mapGet_mapSet_isSome m₀ pr.1.text t pr.2 h)

theorem seedFold_isSome :
    ∀ (pairs : List (RetrievedFact × Embedding)) (m₀ : EmbeddingMap)
      (t : String),
      (∃ pr ∈ pairs, pr.1.text = t) ∨ (mapGet m₀ t).isSome = true →
      (mapGet (pairs.foldl (fun m fe =>
        if mapHas m fe.1.text then m else mapSet m fe.1.text fe.2) m₀)
          t).isSome = true := by
  intro pairs
  induction pairs with
  | nil =>
      intro m₀ t h
      rcases h with ⟨pr, hpr, _⟩ | h
      · simp at hpr
      · exact h
  | cons pr rest ih =>
      intro m₀ t h
      rw [List.foldl_cons]
      rcases h with ⟨pr', hpr', hteq⟩ | h
      · rcases List.mem_cons.1 hpr' with rfl | htail
        · by_cases hhas : mapHas m₀ pr'.1.text
          · rw [if_pos hhas]
            apply seedFold_preserve
            rw [hteq] at hhas
            rw [← mapHas_eq_isSome]
            exact hhas
          · rw [if_neg hhas]
            apply seedFold_preserve
            rw [hteq]
            rw [mapGet_mapSet_self]
            rfl
        · by_cases hhas : mapHas m₀ pr.1.text
          · rw [if_pos hhas]
            exact ih m₀ t (Or.inl ⟨pr', htail, hteq⟩)
          · rw [if_neg hhas]
            exact ih _ t (Or.inl ⟨pr', htail, hteq⟩)
      · by_cases hhas : mapHas m₀ pr.1.text
        · rw [if_pos hhas]
          exact ih m₀ t (Or.inr h)
        · rw [if_neg hhas]
          exact ih _ t (Or.inr
            (mapGet_mapSet_isSome m₀ pr.1.text t pr.2 h))

theorem seedFold_keys :
    ∀ (pairs : List (RetrievedFact × Embedding)) (m₀ : EmbeddingMap)
      (t : String),
      (mapGet (pairs.foldl (fun m fe =>
        if mapHas m fe.1.text then m else mapSet m fe.1.text fe.2) m₀)
          t).isSome = true →
      (∃ pr ∈ pairs, pr.1.text = t) ∨ (mapGet m₀ t).isSome = true := by
  intro pairs
  induction pairs with
  | nil => intro m₀ t h; exact Or.inr h
  | cons pr rest ih =>
      intro m₀ t h
      rw [List.foldl_cons] at h
      by_cases hhas : mapHas m₀ pr.1.text
      · rw [if_pos hhas] at h
        rcases ih m₀ t h with ⟨pr', hpr', hteq⟩ | h'
        · exact Or.inl ⟨pr', List.mem_cons_of_mem _ hpr', hteq⟩
        · exact Or.inr h'
      · rw [if_neg hhas] at h
        rcases ih _ t h with ⟨pr', hpr', hteq⟩ | h'
        · exact Or.inl ⟨pr', List.mem_cons_of_mem _ hpr', hteq⟩
        · by_cases hkey : pr.1.text = t
          · exact Or.inl ⟨pr, List.mem_cons_self _ _, hkey⟩
          · rw [mapGet_mapSet_ne m₀ pr.1.text t pr.2 hkey] at h'
            exact Or.inr h'

theorem exists_zip_pair :
    ∀ (facts : List RetrievedFact) (embs : List Embedding)
      (fact : RetrievedFact), fact ∈ facts → embs.length = facts.length →
      ∃ pr ∈ facts.zip embs, pr.1 = fact := by
  intro facts
  induction facts with
  | nil => intro embs fact hf; simp at hf
  | cons f fs ih =>
      intro embs fact hf hlen
      cases embs with
      | nil => simp at hlen
      | cons e es =>
          rcases List.mem_cons.1 hf with rfl | htail
          · exact ⟨(fact, e), List.mem_cons_self _ _, rfl⟩
          · obtain ⟨pr, hpr, heq⟩ := ih es fact htail (by simpa using hlen)
            exact ⟨pr, List.mem_cons_of_mem _ hpr, heq⟩

theorem queued_fold_mem (m₀ : EmbeddingMap) :
    ∀ (ps : List PreparedDecision) (q₀ : List String) (t : String),
      t ∈ ps.foldl (fun q p => queueEmbedding m₀ q p.embeddingKey) q₀ →
      t ∈ q₀ ∨ (t ≠ "" ∧ mapHas m₀ t = false) := by
  intro ps
  induction ps with
  | nil => intro q₀ t h; exact Or.inl h
  | cons p rest ih =>
      intro q₀ t h
      rw [List.foldl_cons] at h
      rcases ih _ t h with hq | hprops
      · unfold queueEmbedding at hq
        by_cases hcond : p.embeddingKey = "" ∨
            mapHas m₀ p.embeddingKey = true ∨ p.embeddingKey ∈ q₀
        · rw [if_pos hcond] at hq
          exact Or.inl hq
        · rw [if_neg hcond] at hq
          rcases List.mem_append.1 hq with hq' | hq'
          · exact Or.inl hq'
          · rcases List.mem_singleton.1 hq' with rfl
            push_neg at hcond
            exact Or.inr ⟨hcond.1, by simpa using hcond.2.1⟩
      · exact Or.inr hprops

theorem overrideFold_get (embedf : String → Embedding) :
    ∀ (queued : List String) (m : EmbeddingMap) (k : String),
      (∀ t ∈ queued, t ≠ k) →
      mapGet (queued.foldl (fun m t => mapSet m t (embedf t)) m) k =
        mapGet m k := by
  intro queued
  induction queued with
  | nil => intro m k _; rfl
  | cons t rest ih =>
      intro m k hne
      rw [List.foldl_cons]
      rw [ih _ k (fun s hs => hne s (List.mem_cons_of_mem _ hs))]
      exact mapGet_mapSet_ne m t k _ (hne t (List.mem_cons_self _ _))

theorem buildDecisionPlan_get (env : Env) (facts : List RetrievedFact)
    (factEmbeddings : List Embedding) (existingLen startFactId : Nat)
    (ds : List MemoryUpdateDecision) (k : String)
    (hk : mapHas (seedEmbeddingMap facts factEmbeddings) k = true ∨
      k = "") :
    mapGet (buildDecisionPlan env facts factEmbeddings existingLen
        startFactId ds).embeddingByText k =
      mapGet (seedEmbeddingMap facts factEmbeddings) k := by
  unfold buildDecisionPlan
  apply overrideFold_get
  intro t ht
  rcases queued_fold_mem _ _ _ t ht with hq | ⟨hne, hhas⟩
  · simp at hq
  · rcases hk with hk | hk
    · intro hc
      rw [hc, hk] at hhas
      cases hhas
    · rw [hk]
      exact hne

/-- C9: Stage-5 treatment of empty decision texts.  (1) An ADD decision
with empty `text` is kept, falling back to the source fact's text; (2) that
text's embedding is the seeded Stage-3 one — the plan map resolves it to
the seed entry, which exists — so nothing is re-embedded for it; (3) a
decision whose embedding key misses the map is skipped at apply time with
no state change; (4) when no fact text is empty, an UPDATE decision's
empty text has no embedding in the plan map (so (3) applies and it is
skipped); (5) when the empty string itself is a fact text, the plan map
does carry an embedding for it; and (6) an UPDATE whose key resolves and
whose target index is valid is applied — the target row is rewritten and
the update counter incremented. -/
theorem decision_empty_text_handling :
    (∀ (facts : List RetrievedFact) (startFactId existingLen : Nat)
        (d : MemoryUpdateDecision) (decisionId : Int) (i : Nat)
        (fact : RetrievedFact),
      d.event = .ADD → d.text = "" → jsParseInt d.id = some decisionId →
      decisionId - (startFactId : Int) = (i : Int) →
      facts.get? i = some fact →
      prepareDecision facts startFactId existingLen d =
        some (.add fact.text fact.category fact.importance fact.confidence
          fact.text)) ∧
    (∀ (env : Env) (facts : List RetrievedFact)
        (factEmbeddings : List Embedding) (existingLen startFactId : Nat)
        (ds : List MemoryUpdateDecision) (fact : RetrievedFact),
      factEmbeddings.length = facts.length → fact ∈ facts →
      mapGet (buildDecisionPlan env facts factEmbeddings existingLen
          startFactId ds).embeddingByText fact.text =
        mapGet (seedEmbeddingMap facts factEmbeddings) fact.text ∧
      (mapGet (seedEmbeddingMap facts factEmbeddings) fact.text).isSome =
        true) ∧
    (∀ (fail : Nat → Bool) (now : Nat) (embMap : EmbeddingMap)
        (existing : List ExistingMemory) (u : String)
        (st : DB × Nat × Nat × Nat) (d : PreparedDecision),
      mapGet embMap d.embeddingKey = none →
      applyOneDecision fail now embMap existing u st d = some st) ∧
    (∀ (env : Env) (facts : List RetrievedFact)
        (factEmbeddings : List Embedding) (existingLen startFactId : Nat)
        (ds : List MemoryUpdateDecision),
      (∀ f ∈ facts, f.text ≠ "") →
      mapGet (buildDecisionPlan env facts factEmbeddings existingLen
        startFactId ds).embeddingByText "" = none) ∧
    (∀ (env : Env) (facts : List RetrievedFact)
        (factEmbeddings : List Embedding) (existingLen startFactId : Nat)
        (ds : List MemoryUpdateDecision) (fact : RetrievedFact),
      factEmbeddings.length = facts.length → fact ∈ facts →
      fact.text = "" →
      (mapGet (buildDecisionPlan env facts factEmbeddings existingLen
        startFactId ds).embeddingByText "").isSome = true) ∧
    (∀ (fail : Nat → Bool) (now : Nat) (embMap : EmbeddingMap)
        (existing : List ExistingMemory) (u : String) (db : DB)
        (k a b idx : Nat) (text key : String) (emb : Embedding)
        (t : ExistingMemory),
      mapGet embMap key = some emb → existing.get? idx = some t →
      fail k = false →
      applyOneDecision fail now embMap existing u (db, k, a, b)
        (.update idx text key) =
        some (updateMemoryRow db t.originalId text t.text emb now,
          k + 1, a, b + 1)) := by
  refine ⟨?_, ?_, ?_, ?_, ?_, ?_⟩
  · intro facts startFactId existingLen d decisionId i fact hev htext
      hparse hidx hget
    unfold prepareDecision
    rw [hparse, hev]
    dsimp only
    rw [if_neg (by rw [hidx]; omega)]
    have htn : (decisionId - (startFactId : Int)).toNat = i := by
      rw [hidx]
      simp
    rw [htn, hget]
    rw [htext]
    simp
  · intro env facts factEmbeddings existingLen startFactId ds fact hlen
      hfact
    have hseed : (mapGet (seedEmbeddingMap facts factEmbeddings)
        fact.text).isSome = true := by
      obtain ⟨pr, hpr, heq⟩ := exists_zip_pair facts factEmbeddings fact
        hfact hlen
      exact seedFold_isSome _ [] fact.text (Or.inl ⟨pr, hpr, by rw [heq]⟩)
    refine ⟨?_, hseed⟩
    apply buildDecisionPlan_get
    left
    rw [mapHas_eq_isSome]
    exact hseed
  · intro fail now embMap existing u st d h
    obtain ⟨db, k, a, b⟩ := st
    rw [applyOneDecision, h]
  · intro env facts factEmbeddings existingLen startFactId ds hne
    rw [buildDecisionPlan_get env facts factEmbeddings existingLen
      startFactId ds "" (Or.inr rfl)]
    rcases hcase : mapGet (seedEmbeddingMap facts factEmbeddings) ""
      with _ | v
    · rfl
    · exfalso
      have hsome : (mapGet (seedEmbeddingMap facts factEmbeddings)
          "").isSome = true := by rw [hcase]; rfl
      rcases seedFold_keys _ [] "" hsome with ⟨pr, hpr, heq⟩ | habs
      · obtain ⟨f, e⟩ := pr
        exact hne f (List.mem_zip hpr).1 heq
      · simp [mapGet] at habs
  · intro env facts factEmbeddings existingLen startFactId ds fact hlen
      hfact htext
    rw [buildDecisionPlan_get env facts factEmbeddings existingLen
      startFactId ds "" (Or.inr rfl)]
    obtain ⟨pr, hpr, heq⟩ := exists_zip_pair facts factEmbeddings fact
      hfact hlen
    exact seedFold_isSome _ [] "" (Or.inl ⟨pr, hpr, by rw [heq, htext]⟩)
  · intro fail now embMap existing u db k a b idx text key emb t hget htgt
      hfail
    rw [applyOneDecision]
    dsimp only [PreparedDecision.embeddingKey]
    rw [hget]
    dsimp only
    rw [htgt]
    dsimp only
    rw [if_neg (by rw [hfail]; exact Bool.false_ne_true)]

/-- C9 witness: the six parts of the theorem at concrete inputs — the
empty-text ADD decision `{id: "2", event: ADD, text: ""}` resolves to the
fact's own text with the seeded embedding present; a key that misses the
map skips the decision; with no empty fact text the empty key misses;
with an empty fact text it resolves; a resolvable UPDATE is applied. -/
theorem decision_empty_text_handling_witness :
    prepareDecision [c9Fact] 2 1 ⟨"2", .ADD, ""⟩ =
      some (.add c9Fact.text c9Fact.category c9Fact.importance
        c9Fact.confidence c9Fact.text) ∧
    (mapGet (buildDecisionPlan pipeEnv [c9Fact] [[9]] 1 2
        [⟨"2", .ADD, ""⟩]).embeddingByText c9Fact.text =
      mapGet (seedEmbeddingMap [c9Fact] [[9]]) c9Fact.text ∧
      (mapGet (seedEmbeddingMap [c9Fact] [[9]]) c9Fact.text).isSome =
        true) ∧
    applyOneDecision noFail 9 [] [] "u" (pipeDB, 0, 0, 0)
      (.update 0 "" "") = some (pipeDB, 0, 0, 0) ∧
    mapGet (buildDecisionPlan pipeEnv [c9Fact] [[9]] 1 2
      [⟨"1", .UPDATE, ""⟩]).embeddingByText "" = none ∧
    (mapGet (buildDecisionPlan pipeEnv [c9EmptyFact] [[0]] 1 2
      [⟨"1", .UPDATE, ""⟩]).embeddingByText "").isSome = true ∧
    applyOneDecision noFail 9 [("x", [1])] [⟨"1", 5, "old"⟩] "u"
      (pipeDB, 0, 0, 0) (.update 0 "newer" "x") =
      some (updateMemoryRow pipeDB 5 "newer" "old" [1] 9, 1, 0, 1) :=
  ⟨decision_empty_text_handling.1 [c9Fact] 2 1 ⟨"2", .ADD, ""⟩ 2 0 c9Fact
      rfl rfl (by decide) (by decide) (by decide),
   decision_empty_text_handling.2.1 pipeEnv [c9Fact] [[9]] 1 2
      [⟨"2", .ADD, ""⟩] c9Fact (by decide) (by decide),
   decision_empty_text_handling.2.2.1 noFail 9 [] [] "u" (pipeDB, 0, 0, 0)
      (.update 0 "" "") (by decide),
   decision_empty_text_handling.2.2.2.1 pipeEnv [c9Fact] [[9]] 1 2
      [⟨"1", .UPDATE, ""⟩] (by decide),
   decision_empty_text_handling.2.2.2.2.1 pipeEnv [c9EmptyFact] [[0]] 1 2
      [⟨"1", .UPDATE, ""⟩] c9EmptyFact (by decide) (by decide) (by decide),
   decision_empty_text_handling.2.2.2.2.2 noFail 9 [("x", [1])]
      [⟨"1", 5, "old"⟩] "u" pipeDB 0 0 0 0 "newer" "x" [1] ⟨"1", 5, "old"⟩
      (by decide) (by decide) (by decide)⟩


